import Mathlib

/-!
Verification development for the open-harness agent-execution harness.

The embedding models the step-loop executor (`Agent.run`, src/cli.ts),
the subagent `task` tool (`createTaskTool`, src/cli.ts), the approval
wrapper (`wrapToolsWithApproval`, src/cli.ts), the default compaction
strategy (`pruneToolResults`, `DefaultCompactionStrategy.compact`,
src/session.ts) and the `Session.send` retry loop (src/session.ts).

The provider stream consumed by `Agent.run` (`stream.fullStream` from the
`ai` SDK) is modelled as a list of typed stream parts, optionally followed
by a thrown fault: the code iterates over the stream with `for await`, and
a fault thrown by the stream interrupts the iteration after the parts that
were already consumed.
-/

set_option linter.unusedVariables false
set_option linter.unreachableTactic false
set_option linter.unusedTactic false

namespace OpenHarness

/-- Role of a model message (the `ai` SDK `ModelMessage` roles used by the code). -/
inductive Role
  | user
  | assistant
  | tool
  | system
deriving DecidableEq

/-- One typed content part of a message.  A `tool-result` part carries the
`result` payload that pruning replaces; its remaining fields (kept intact by
the object spread `{ ...part, result: "[pruned]" }` in src/session.ts) are
collapsed into `meta`.  Any other part kind is `otherPart`. -/
inductive ContentPart
  | toolResult (meta : String) (result : String)
  | otherPart (payload : String)
deriving DecidableEq

/-- Message content: plain text or an ordered list of typed parts
(the `Array.isArray(content)` distinction in src/session.ts). -/
inductive Content
  | text (s : String)
  | parts (ps : List ContentPart)
deriving DecidableEq

/-- A conversation message. -/
structure Message where
  role : Role
  content : Content
deriving DecidableEq

/-- `TokenUsage` (src/cli.ts): all fields may be unset when the provider omits them. -/
structure TokenUsage where
  inputTokens : Option Nat
  outputTokens : Option Nat
  totalTokens : Option Nat
deriving DecidableEq

/-- The all-unset usage record used by the catch block of `Agent.run`. -/
def TokenUsage.unset : TokenUsage := ⟨none, none, none⟩

/-- A JavaScript `Error` value: a `name` and a `message`. -/
structure Fault where
  name : String
  message : String
deriving DecidableEq

/-- JavaScript `String(error)` on an `Error` value: `name + ": " + message`,
or just the name when the message is empty. -/
def faultToString (f : Fault) : String :=
  if f.message = "" then f.name else f.name ++ ": " ++ f.message

/-- The four terminal results of one `Agent.run` call (src/cli.ts, `finish` case). -/
inductive RunResult
  | complete
  | stopped
  | max_steps
  | error
deriving DecidableEq

/-- `AgentEvent` (src/cli.ts): the discriminated union of step-lifecycle events. -/
inductive AgentEvent
  | textDelta (text : String)
  | textDone (text : String)
  | reasoningDelta (text : String)
  | reasoningDone (text : String)
  | toolStart (toolCallId toolName : String) (input : String)
  | toolDone (toolCallId toolName : String) (output : String)
  | toolError (toolCallId toolName : String) (error : String)
  | stepStart (stepNumber : Nat)
  | stepDone (stepNumber : Nat) (usage : TokenUsage) (finishReason : String)
  | error (e : Fault)
  | done (result : RunResult) (messages : List Message) (totalUsage : TokenUsage)
deriving DecidableEq

/-- One part of the provider's `fullStream` consumed by `Agent.run`.
`finish` carries the final messages of `await stream.response` that the code
appends to its history in the `finish` case. -/
inductive StreamPart
  | startStep
  | textDelta (text : String)
  | textEnd
  | reasoningDelta (text : String)
  | reasoningEnd
  | toolCall (toolCallId toolName : String) (input : String)
  | toolResult (toolCallId toolName : String) (output : String)
  | toolError (toolCallId toolName : String) (error : Fault)
  | finishStep (usage : TokenUsage) (finishReason : String)
  | errorPart (e : Fault)
  | finish (finishReason : String) (totalUsage : TokenUsage) (responseMessages : List Message)
deriving DecidableEq

/-- The mutable local state of one `Agent.run` call: the step counter, the
accumulated text and reasoning of the current step, and the agent's message
list (`this.messages` after the input was appended). -/
structure RunState where
  stepNumber : Nat
  stepText : String
  stepReasoning : String
  messages : List Message
deriving DecidableEq

/-- Mapping of the provider's finish reason onto a `RunResult`
(the nested conditional in the `finish` case of `Agent.run`). -/
def finishResultOf (finishReason : String) : RunResult :=
  if finishReason = "stop" then .complete
  else if finishReason = "tool-calls" then .max_steps
  else if finishReason = "error" then .error
  else .stopped

/-- One iteration of the `for await (const part of stream.fullStream)` switch
in `Agent.run` (src/cli.ts): the events yielded for this part and the updated
local state. -/
def processPart (st : RunState) : StreamPart → List AgentEvent × RunState
  | .startStep =>
      ([.stepStart (st.stepNumber + 1)],
        { st with stepNumber := st.stepNumber + 1, stepText := "", stepReasoning := "" })
  | .textDelta t =>
      ([.textDelta t], { st with stepText := st.stepText ++ t })
  | .textEnd =>
      ((if st.stepText = "" then [] else [.textDone st.stepText]), st)
  | .reasoningDelta t =>
      ([.reasoningDelta t], { st with stepReasoning := st.stepReasoning ++ t })
  | .reasoningEnd =>
      ((if st.stepReasoning = "" then [] else [.reasoningDone st.stepReasoning]), st)
  | .toolCall id name input =>
      ([.toolStart id name input], st)
  | .toolResult id name output =>
      ([.toolDone id name output], st)
  | .toolError id name err =>
      ([.toolError id name (faultToString err)], st)
  | .finishStep usage finishReason =>
      ([.stepDone st.stepNumber usage finishReason], st)
  | .errorPart e =>
      ([.error e], st)
  | .finish finishReason totalUsage responseMessages =>
      ([.done (finishResultOf finishReason) (st.messages ++ responseMessages) totalUsage],
        { st with messages := st.messages ++ responseMessages })

/-- Folding `processPart` over the consumed stream parts. -/
def runParts (st : RunState) : List StreamPart → List AgentEvent × RunState
  | [] => ([], st)
  | p :: ps =>
      let r := processPart st p
      let r' := runParts r.2 ps
      (r.1 ++ r'.1, r'.2)

/-- The `input` argument of `Agent.run`: a string (turned into a `user`
message) or a literal message list. -/
inductive RunInput
  | str (s : String)
  | msgs (l : List Message)
deriving DecidableEq

/-- How `Agent.run` turns its input into appended messages. -/
def inputMessages : RunInput → List Message
  | .str s => [⟨.user, .text s⟩]
  | .msgs l => l

/-- `Agent.run` (src/cli.ts): appends the input to the history, consumes the
stream parts, and — when the stream throws a fault after the listed parts —
runs the catch block, yielding an `error` event and a synthetic `done` event
with result `error` and the current message list.  Returns the yielded events
and the agent's message list after the call. -/
def Agent.run (history : List Message) (input : RunInput) (parts : List StreamPart)
    (fault : Option Fault) : List AgentEvent × List Message :=
  let start : RunState := ⟨0, "", "", history ++ inputMessages input⟩
  let r := runParts start parts
  match fault with
  | none => (r.1, r.2.messages)
  | some f => (r.1 ++ [.error f, .done .error r.2.messages TokenUsage.unset], r.2.messages)

/-- Recognizer for `done` events. -/
def isDoneEvent : AgentEvent → Bool
  | .done _ _ _ => true
  | _ => false

/-- Recognizer for `finish` stream parts. -/
def isFinishPart : StreamPart → Bool
  | .finish _ _ _ => true
  | _ => false

/-- The messages carried by a `done` event. -/
def doneMessagesOf : AgentEvent → Option (List Message)
  | .done _ m _ => some m
  | _ => none

/-- The response messages a stream part appends to the agent history
(nonempty only for `finish`). -/
def finishAppend : StreamPart → List Message
  | .finish _ _ rm => rm
  | _ => []

theorem processPart_countP_done (st : RunState) (p : StreamPart) :
    (processPart st p).1.countP isDoneEvent = (if isFinishPart p then 1 else 0) := by
  cases p <;> simp [processPart, isFinishPart, isDoneEvent, List.countP_cons] <;> split <;> simp

theorem runParts_append (st : RunState) (l₁ l₂ : List StreamPart) :
    runParts st (l₁ ++ l₂) =
      ((runParts st l₁).1 ++ (runParts (runParts st l₁).2 l₂).1,
        (runParts (runParts st l₁).2 l₂).2) := by
  induction l₁ generalizing st with
  | nil => simp [runParts]
  | cons p ps ih => simp [runParts, ih, List.append_assoc]

theorem runParts_countP_done (st : RunState) (ps : List StreamPart) :
    (runParts st ps).1.countP isDoneEvent = ps.countP isFinishPart := by
  induction ps generalizing st with
  | nil => simp [runParts]
  | cons p ps ih =>
      simp [runParts, List.countP_append, List.countP_cons, processPart_countP_done, ih]
      split <;> omega

theorem processPart_messages (st : RunState) (p : StreamPart) :
    (processPart st p).2.messages = st.messages ++ finishAppend p := by
  cases p <;> simp [processPart, finishAppend]

theorem runParts_messages_extend (st : RunState) (ps : List StreamPart) :
    ∃ t, (runParts st ps).2.messages = st.messages ++ t := by
  induction ps generalizing st with
  | nil => exact ⟨[], by simp [runParts]⟩
  | cons p ps ih =>
      obtain ⟨t, ht⟩ := ih (processPart st p).2
      exact ⟨finishAppend p ++ t, by
        simp [runParts, ht, processPart_messages, List.append_assoc]⟩

theorem runParts_messages_no_finish (st : RunState) (ps : List StreamPart)
    (h : ∀ p ∈ ps, isFinishPart p = false) :
    (runParts st ps).2.messages = st.messages := by
  induction ps generalizing st with
  | nil => simp [runParts]
  | cons p ps ih =>
      have hp := h p (by simp)
      have hps : ∀ q ∈ ps, isFinishPart q = false := fun q hq => h q (by simp [hq])
      have : finishAppend p = [] := by
        cases p <;> simp_all [isFinishPart, finishAppend]
      simp [runParts, ih _ hps, processPart_messages, this]

theorem runParts_countP_done_zero (st : RunState) (ps : List StreamPart)
    (h : ∀ p ∈ ps, isFinishPart p = false) :
    (runParts st ps).1.countP isDoneEvent = 0 := by
  rw [runParts_countP_done]
  exact List.countP_eq_zero.mpr (by simpa using h)

theorem processPart_done_messages (st : RunState) (p : StreamPart) (m : List Message)
    (hm : m ∈ (processPart st p).1.filterMap doneMessagesOf) :
    m = (processPart st p).2.messages := by
  cases p <;> simp [processPart, doneMessagesOf] at hm ⊢ <;>
    first
      | exact hm
      | (obtain ⟨a, ⟨_, ha⟩, hb⟩ := hm; subst ha; simp at hb)

theorem runParts_cons (st : RunState) (p : StreamPart) (ps : List StreamPart) :
    runParts st (p :: ps) =
      ((processPart st p).1 ++ (runParts (processPart st p).2 ps).1,
        (runParts (processPart st p).2 ps).2) := by
  simp [runParts]

theorem runParts_done_messages (st : RunState) (ps : List StreamPart) (m : List Message)
    (hm : m ∈ (runParts st ps).1.filterMap doneMessagesOf) :
    (∃ t, m = st.messages ++ t) ∧ ∃ t, (runParts st ps).2.messages = m ++ t := by
  induction ps generalizing st with
  | nil => simp [runParts] at hm
  | cons p ps ih =>
      rw [runParts_cons] at hm ⊢
      simp only [List.filterMap_append, List.mem_append] at hm
      rcases hm with hm | hm
      · have hme := processPart_done_messages st p m hm
        have h1 : ∃ t, m = st.messages ++ t := by
          refine ⟨finishAppend p, ?_⟩
          rw [hme, processPart_messages]
        obtain ⟨t, ht⟩ := runParts_messages_extend (processPart st p).2 ps
        exact ⟨h1, ⟨t, by rw [ht, hme]⟩⟩
      · obtain ⟨⟨t1, ht1⟩, h2⟩ := ih _ hm
        refine ⟨⟨finishAppend p ++ t1, ?_⟩, h2⟩
        rw [ht1, processPart_messages, List.append_assoc]

theorem run_messages_extend (history : List Message) (input : RunInput)
    (parts : List StreamPart) (fault : Option Fault) :
    ∃ t, (Agent.run history input parts fault).2 = history ++ t := by
  obtain ⟨t, ht⟩ := runParts_messages_extend ⟨0, "", "", history ++ inputMessages input⟩ parts
  cases fault <;>
    exact ⟨inputMessages input ++ t, by simp [Agent.run, ht, List.append_assoc]⟩

theorem run_done_messages (history : List Message) (input : RunInput)
    (parts : List StreamPart) (fault : Option Fault) (m : List Message)
    (hm : m ∈ (Agent.run history input parts fault).1.filterMap doneMessagesOf) :
    (∃ t, m = (history ++ inputMessages input) ++ t) ∧
      ∃ t, (Agent.run history input parts fault).2 = m ++ t := by
  cases fault with
  | none =>
      simp only [Agent.run] at hm ⊢
      exact runParts_done_messages _ _ _ hm
  | some f =>
      simp only [Agent.run, List.filterMap_append, List.mem_append] at hm ⊢
      rcases hm with hm | hm
      · obtain ⟨h1, h2⟩ := runParts_done_messages _ _ _ hm
        exact ⟨h1, h2⟩
      · simp [doneMessagesOf] at hm
        subst hm
        refine ⟨runParts_messages_extend _ _, ⟨[], by simp⟩⟩

/-- One `Agent.run` invocation's environment: the input plus the provider
stream behaviour for that call. -/
structure RunCall where
  input : RunInput
  parts : List StreamPart
  fault : Option Fault
deriving DecidableEq

/-- One call to `Agent.run` on an agent whose private message list currently
holds `msgs`. -/
def runCall (msgs : List Message) (c : RunCall) : List AgentEvent × List Message :=
  Agent.run msgs c.input c.parts c.fault

/-- The agent's private message list after a sequence of `run` calls. -/
def stateAfter (init : List Message) (calls : List RunCall) : List Message :=
  calls.foldl (fun s c => (runCall s c).2) init

theorem stateAfter_extend (init : List Message) (calls : List RunCall) :
    ∃ t, stateAfter init calls = init ++ t := by
  induction calls generalizing init with
  | nil => exact ⟨[], by simp [stateAfter]⟩
  | cons c cs ih =>
      obtain ⟨t1, ht1⟩ := run_messages_extend init c.input c.parts c.fault
      obtain ⟨t2, ht2⟩ := ih (runCall init c).2
      refine ⟨t1 ++ t2, ?_⟩
      simp only [stateAfter, List.foldl_cons] at ht2 ⊢
      rw [ht2, show (runCall init c).2 = init ++ t1 from ht1, List.append_assoc]

theorem stateAfter_append_cons (init : List Message) (l₁ : List RunCall) (c : RunCall)
    (l₂ : List RunCall) :
    stateAfter init (l₁ ++ c :: l₂) = stateAfter (runCall (stateAfter init l₁) c).2 l₂ := by
  simp [stateAfter, List.foldl_append]

/-- A well-formed provider stream: either it was consumed to completion, so a
`finish` part occurs exactly once and as the last consumed part, or it threw a
fault and no `finish` part was consumed before the throw. -/
def WellFormedStream (parts : List StreamPart) (fault : Option Fault) : Prop :=
  (fault = none ∧
      ∃ pre fr u rm, parts = pre ++ [StreamPart.finish fr u rm] ∧
        ∀ p ∈ pre, isFinishPart p = false) ∨
  (∃ f, fault = some f ∧ ∀ p ∈ parts, isFinishPart p = false)

theorem run_wellformed_unique_done (history : List Message) (input : RunInput)
    (parts : List StreamPart) (fault : Option Fault)
    (h : WellFormedStream parts fault) :
    (Agent.run history input parts fault).1.countP isDoneEvent = 1 ∧
      ∃ evs r m u, (Agent.run history input parts fault).1 =
        evs ++ [AgentEvent.done r m u] := by
  rcases h with ⟨hf, pre, fr, u, rm, hparts, hpre⟩ | ⟨f, hf, hnofin⟩
  · subst hf hparts
    have h0 := runParts_countP_done_zero ⟨0, "", "", history ++ inputMessages input⟩ pre hpre
    have hEq : (Agent.run history input (pre ++ [StreamPart.finish fr u rm]) none).1 =
        (runParts ⟨0, "", "", history ++ inputMessages input⟩ pre).1 ++
          [AgentEvent.done (finishResultOf fr)
            ((runParts ⟨0, "", "", history ++ inputMessages input⟩ pre).2.messages ++ rm) u] := by
      simp [Agent.run, runParts_append, runParts, processPart]
    rw [hEq]
    refine ⟨?_, _, _, _, _, rfl⟩
    simp [List.countP_append, h0, List.countP_cons, isDoneEvent]
  · subst hf
    have h0 := runParts_countP_done_zero ⟨0, "", "", history ++ inputMessages input⟩ parts hnofin
    have hEq : (Agent.run history input parts (some f)).1 =
        ((runParts ⟨0, "", "", history ++ inputMessages input⟩ parts).1 ++
            [AgentEvent.error f]) ++
          [AgentEvent.done RunResult.error
            (runParts ⟨0, "", "", history ++ inputMessages input⟩ parts).2.messages
            TokenUsage.unset] := by
      simp [Agent.run]
    rw [hEq]
    refine ⟨?_, _, _, _, _, rfl⟩
    simp [List.countP_append, h0, List.countP_cons, isDoneEvent]

/-- C1 (amended): for every input and every well-formed consumed stream —
one whose `finish` part is its unique and last part when it completes, and
which has consumed no `finish` part when it throws a mid-stream fault — one
call to `Agent.run` yields exactly one event of type `done`, and that event
is the last event of the yielded sequence. -/
theorem run_emits_unique_final_done (history : List Message) (input : RunInput)
    (parts : List StreamPart) (fault : Option Fault)
    (h : WellFormedStream parts fault) :
    (Agent.run history input parts fault).1.countP isDoneEvent = 1 ∧
      ∃ evs r m u, (Agent.run history input parts fault).1 =
        evs ++ [AgentEvent.done r m u] :=
  run_wellformed_unique_done history input parts fault h

/-- C1 witness: a concrete well-formed stream on which `Agent.run` yields
exactly one `done` event, in last position. -/
theorem run_emits_unique_final_done_witness :
    WellFormedStream [StreamPart.finish "stop" TokenUsage.unset []] none ∧
      ((Agent.run [] (RunInput.str "x")
          [StreamPart.finish "stop" TokenUsage.unset []] none).1.countP isDoneEvent = 1 ∧
        ∃ evs r m u, (Agent.run [] (RunInput.str "x")
            [StreamPart.finish "stop" TokenUsage.unset []] none).1 =
          evs ++ [AgentEvent.done r m u]) :=
  ⟨Or.inl ⟨rfl, [], "stop", TokenUsage.unset, [], rfl, by simp⟩,
    run_emits_unique_final_done [] (RunInput.str "x")
      [StreamPart.finish "stop" TokenUsage.unset []] none
      (Or.inl ⟨rfl, [], "stop", TokenUsage.unset, [], rfl, by simp⟩)⟩

/-- C1 counterexample: on the concrete input where the consumed stream is
empty and no fault is thrown, `Agent.run` yields no `done` event at all, so
the claim's "exactly one `done` event for every sequence of stream parts"
fails as stated. -/
theorem run_unique_done_counterexample :
    ¬ ((Agent.run [] (RunInput.str "hi") [] none).1.countP isDoneEvent = 1) := by
  decide

/-- C5: when a fault is thrown during streaming (no `finish` part was
consumed), `Agent.run` yields an `error` event carrying that fault,
immediately followed by a `done` event with result `error` whose messages
field equals the history as it stood before the fault — the input messages
appended to the prior history, with no model or tool messages included — and
no other `done` event is yielded before the pair. -/
theorem run_fault_yields_error_then_done (history : List Message) (input : RunInput)
    (parts : List StreamPart) (f : Fault)
    (h : ∀ p ∈ parts, isFinishPart p = false) :
    (∃ evs, (Agent.run history input parts (some f)).1 =
        evs ++ [AgentEvent.error f,
          AgentEvent.done RunResult.error (history ++ inputMessages input) TokenUsage.unset] ∧
        evs.countP isDoneEvent = 0) ∧
      (Agent.run history input parts (some f)).2 = history ++ inputMessages input := by
  have hmsg := runParts_messages_no_finish ⟨0, "", "", history ++ inputMessages input⟩ parts h
  have h0 := runParts_countP_done_zero ⟨0, "", "", history ++ inputMessages input⟩ parts h
  simp only [Agent.run]
  exact ⟨⟨_, by rw [hmsg], h0⟩, by rw [hmsg]⟩

/-- C5 witness: a concrete faulted stream produces the `error`/`done(error)`
pair with the pre-fault history. -/
theorem run_fault_yields_error_then_done_witness :
    (∀ p ∈ [StreamPart.startStep, StreamPart.textDelta "he"], isFinishPart p = false) ∧
      ((∃ evs, (Agent.run [] (RunInput.str "q")
          [StreamPart.startStep, StreamPart.textDelta "he"] (some ⟨"Error", "boom"⟩)).1 =
          evs ++ [AgentEvent.error ⟨"Error", "boom"⟩,
            AgentEvent.done RunResult.error
              ([] ++ inputMessages (RunInput.str "q")) TokenUsage.unset] ∧
          evs.countP isDoneEvent = 0) ∧
        (Agent.run [] (RunInput.str "q")
          [StreamPart.startStep, StreamPart.textDelta "he"] (some ⟨"Error", "boom"⟩)).2 =
          [] ++ inputMessages (RunInput.str "q")) :=
  ⟨by decide,
    run_fault_yields_error_then_done [] (RunInput.str "q")
      [StreamPart.startStep, StreamPart.textDelta "he"] ⟨"Error", "boom"⟩ (by decide)⟩

/-- C9: `Agent.run` appends to a persistent private message list that is
never reset: the messages carried by a `done` event of any later `run` call
on the same instance extend (contain as a prefix) the messages carried by a
`done` event of any earlier `run` call. -/
theorem run_state_persists_across_calls (init : List Message) (calls1 : List RunCall)
    (c1 : RunCall) (calls2 : List RunCall) (c2 : RunCall) (mi mj : List Message)
    (hi : mi ∈ (runCall (stateAfter init calls1) c1).1.filterMap doneMessagesOf)
    (hj : mj ∈ (runCall (stateAfter init (calls1 ++ c1 :: calls2)) c2).1.filterMap
        doneMessagesOf) :
    ∃ t, mj = mi ++ t := by
  obtain ⟨_, ⟨t1, ht1⟩⟩ := run_done_messages _ _ _ _ _ hi
  obtain ⟨⟨t2, ht2⟩, _⟩ := run_done_messages _ _ _ _ _ hj
  obtain ⟨t3, ht3⟩ := stateAfter_extend (runCall (stateAfter init calls1) c1).2 calls2
  rw [stateAfter_append_cons] at ht2
  refine ⟨t1 ++ t3 ++ inputMessages c2.input ++ t2, ?_⟩
  rw [ht2, ht3, show (runCall (stateAfter init calls1) c1).2 = mi ++ t1 from ht1]
  simp [List.append_assoc]

/-- Concrete first `run` call used by the C9 witness. -/
def exCallA : RunCall :=
  ⟨RunInput.str "a",
    [StreamPart.finish "stop" TokenUsage.unset [⟨Role.assistant, Content.text "A"⟩]], none⟩

/-- Concrete second `run` call used by the C9 witness. -/
def exCallB : RunCall :=
  ⟨RunInput.str "b",
    [StreamPart.finish "stop" TokenUsage.unset [⟨Role.assistant, Content.text "B"⟩]], none⟩

/-- The `done` messages of the first call of the C9 witness. -/
def exMi : List Message :=
  [⟨Role.user, Content.text "a"⟩, ⟨Role.assistant, Content.text "A"⟩]

/-- The `done` messages of the second call of the C9 witness. -/
def exMj : List Message :=
  [⟨Role.user, Content.text "a"⟩, ⟨Role.assistant, Content.text "A"⟩,
    ⟨Role.user, Content.text "b"⟩, ⟨Role.assistant, Content.text "B"⟩]

/-- C9 witness: two concrete consecutive `run` calls; the second call's
`done` messages extend the first call's `done` messages. -/
theorem run_state_persists_across_calls_witness :
    (exMi ∈ (runCall (stateAfter [] []) exCallA).1.filterMap doneMessagesOf) ∧
      (exMj ∈ (runCall (stateAfter [] ([] ++ exCallA :: [])) exCallB).1.filterMap
        doneMessagesOf) ∧
      ∃ t, exMj = exMi ++ t :=
  ⟨by decide, by decide,
    run_state_persists_across_calls [] [] exCallA [] exCallB exMi exMj
      (by decide) (by decide)⟩

/-- `estimateMessageTokens` (src/session.ts): per-message estimate obtained by
applying the pluggable estimator to the singleton list holding the message. -/
def estimateMessageTokens (est : List Message → Int) (msg : Message) : Int :=
  est [msg]

/-- The backward walk of `pruneToolResults` that finds the protection
boundary: `rev` is the reversed not-yet-visited portion (most recent message
first), `i` the original index of its head, `acc` the accumulated estimate.
Returns `len` — the initial value of `boundary`, the list length — when the
accumulated estimate never reaches the protected budget. -/
def findBoundaryGo (est : List Message → Int) (prot : Int) (len : Nat) :
    List Message → Nat → Int → Nat
  | [], _, _ => len
  | m :: rest, i, acc =>
      if prot ≤ acc + estimateMessageTokens est m then i
      else findBoundaryGo est prot len rest (i - 1) (acc + estimateMessageTokens est m)

/-- The protection boundary computed by the first loop of `pruneToolResults`. -/
def findBoundary (est : List Message → Int) (prot : Int) (msgs : List Message) : Nat :=
  findBoundaryGo est prot msgs.length msgs.reverse (msgs.length - 1) 0

/-- Replacement of one content part by the pruning loop: a `tool-result` part
has its payload replaced by the placeholder and keeps its other fields
(`part.type === "tool-result" ? { ...part, result: "[pruned]" } : part`). -/
def pruneContentPart : ContentPart → ContentPart
  | .toolResult meta _ => .toolResult meta "[pruned]"
  | p => p

/-- The update applied to one message by the pruning loop: when the content is
a parts array, every part is mapped through `pruneContentPart`; plain string
content is untouched (the `Array.isArray(content)` guard). -/
def pruneMessage (m : Message) : Message :=
  match m with
  | ⟨role, .parts ps⟩ => ⟨role, .parts (ps.map pruneContentPart)⟩
  | m => m

/-- The pruned message list: every `tool`-role message at an index before the
boundary is rewritten by `pruneMessage`; everything else is kept. -/
def prunedMessages (boundary : Nat) (msgs : List Message) : List Message :=
  (msgs.take boundary).map (fun m => if m.role = Role.tool then pruneMessage m else m) ++
    msgs.drop boundary

/-- The `tokensSaved` accumulated by the pruning loop: each index before the
boundary contributes its per-message estimate decrease when it holds a
`tool`-role message, and 0 otherwise. -/
def pruneSavings (est : List Message → Int) (boundary : Nat) (msgs : List Message) : Int :=
  ((msgs.take boundary).map (fun m =>
    if m.role = Role.tool then
      estimateMessageTokens est m - estimateMessageTokens est (pruneMessage m)
    else 0)).sum

/-- The `modified` counter of the pruning loop: the number of `tool`-role
messages before the boundary. -/
def pruneModified (boundary : Nat) (msgs : List Message) : Nat :=
  ((msgs.take boundary).filter (fun m => m.role == Role.tool)).length

/-- `PruneResult` (src/session.ts). -/
structure PruneResult where
  messages : List Message
  tokensSaved : Int
  messagesModified : Nat
deriving DecidableEq

/-- `pruneToolResults` (src/session.ts): find the protection boundary, prune
tool results before it, and return the original list with zero counters when
the savings fall below the minimum. -/
def pruneToolResults (est : List Message → Int) (prot minSavings : Int)
    (msgs : List Message) : PruneResult :=
  let boundary := findBoundary est prot msgs
  let saved := pruneSavings est boundary msgs
  if saved < minSavings then ⟨msgs, 0, 0⟩
  else ⟨prunedMessages boundary msgs, saved, pruneModified boundary msgs⟩

/-- The synthetic continuation message built by the summarization phase of
`DefaultCompactionStrategy.compact`. -/
def summaryMessage (summary : String) : Message :=
  ⟨Role.user, Content.text ("[Previous conversation summary]\n\n" ++ summary ++
    "\n\n[The conversation continues from here]")⟩

/-- `CompactionResult` (src/session.ts). -/
structure CompactionResult where
  messages : List Message
  summary : Option String
  messagesRemoved : Nat
  tokensPruned : Int
deriving DecidableEq

/-- `DefaultCompactionStrategy.compact` (src/session.ts): pruning first; when
the returned savings meet the minimum, the pruned history is returned with no
model call, otherwise the whole history is replaced by one synthetic user
message embedding the generated summary.  The external `generateText` call is
modelled by the function `summarize` from the history to the produced
summary text. -/
def DefaultCompactionStrategy.compact (est : List Message → Int)
    (prot minPruneSavings : Int) (summarize : List Message → String)
    (msgs : List Message) : CompactionResult :=
  let pruned := pruneToolResults est prot minPruneSavings msgs
  if minPruneSavings ≤ pruned.tokensSaved then
    ⟨pruned.messages, none, 0, pruned.tokensSaved⟩
  else
    ⟨[summaryMessage (summarize msgs)], some (summarize msgs), msgs.length - 1,
      est msgs - est [summaryMessage (summarize msgs)]⟩

theorem findBoundaryGo_le (est : List Message → Int) (prot : Int) (len : Nat)
    (rev : List Message) (i : Nat) (acc : Int) :
    findBoundaryGo est prot len rev i acc ≤ Nat.max len i := by
  induction rev generalizing i acc with
  | nil => simp [findBoundaryGo]
  | cons m rest ih =>
      simp only [findBoundaryGo]
      split
      · exact Nat.le_max_right _ _
      · refine Nat.le_trans (ih (i - 1) _) (Nat.max_le.mpr ?_)
        exact ⟨Nat.le_max_left _ _, Nat.le_trans (Nat.sub_le _ _) (Nat.le_max_right _ _)⟩

theorem findBoundary_le (est : List Message → Int) (prot : Int) (msgs : List Message) :
    findBoundary est prot msgs ≤ msgs.length := by
  have h := findBoundaryGo_le est prot msgs.length msgs.reverse (msgs.length - 1) 0
  simp only [findBoundary]
  exact Nat.le_trans h (Nat.max_le.mpr ⟨Nat.le_refl _, Nat.sub_le _ _⟩)

theorem map_sum_sub (l : List Message) (f g : Message → Int) :
    (l.map f).sum - (l.map g).sum = (l.map (fun x => f x - g x)).sum := by
  induction l with
  | nil => simp
  | cons a l ih => simp only [List.map_cons, List.sum_cons]; omega

theorem pruneSavings_additive (est : List Message → Int)
    (hadd : ∀ l, est l = (l.map (fun m => est [m])).sum) (b : Nat) (msgs : List Message) :
    pruneSavings est b msgs = est msgs - est (prunedMessages b msgs) := by
  have hm : (List.map (fun m => est [m]) msgs).sum =
      (List.map (fun m => est [m]) (msgs.take b)).sum +
        (List.map (fun m => est [m]) (msgs.drop b)).sum := by
    conv_lhs => rw [← List.take_append_drop b msgs]
    rw [List.map_append, List.sum_append]
  have hp : (List.map (fun m => est [m]) (prunedMessages b msgs)).sum =
      (List.map (fun m => est [if m.role = Role.tool then pruneMessage m else m])
          (msgs.take b)).sum +
        (List.map (fun m => est [m]) (msgs.drop b)).sum := by
    rw [prunedMessages, List.map_append, List.sum_append, List.map_map]
    rfl
  rw [hadd msgs, hadd (prunedMessages b msgs), hm, hp]
  have hsum := map_sum_sub (msgs.take b) (fun m => est [m])
    (fun m => est [if m.role = Role.tool then pruneMessage m else m])
  have hcong : ((msgs.take b).map (fun m => est [m] -
      est [if m.role = Role.tool then pruneMessage m else m])).sum =
      pruneSavings est b msgs := by
    unfold pruneSavings
    congr 1
    apply List.map_congr_left
    intro m _
    by_cases hm : m.role = Role.tool <;> simp [hm, estimateMessageTokens]
  omega

/-- C4 (amended): when the estimated savings reach the configured minimum,
pruning leaves every message at or after the protection boundary exactly
equal to its input value and rewrites every `tool`-role message before the
boundary by replacing each tool-result payload with the fixed placeholder
`"[pruned]"` while keeping the message shape (role, remaining part fields,
part count) intact; the reported `tokensSaved` equals the sum over the
eligible prefix of the per-message estimate decreases, which equals the
pre-prune estimate minus the post-prune estimate of the whole history
whenever the configured estimator is additive across messages (it differs
for a ceiling-style estimator; see the counterexample). -/
theorem pruneToolResults_roundtrip (est : List Message → Int) (prot minSavings : Int)
    (msgs : List Message)
    (h : minSavings ≤ pruneSavings est (findBoundary est prot msgs) msgs) :
    (pruneToolResults est prot minSavings msgs).messages.drop
        (findBoundary est prot msgs) = msgs.drop (findBoundary est prot msgs) ∧
      (pruneToolResults est prot minSavings msgs).messages.take
          (findBoundary est prot msgs) =
        (msgs.take (findBoundary est prot msgs)).map
          (fun m => if m.role = Role.tool then pruneMessage m else m) ∧
      (∀ meta r, pruneContentPart (ContentPart.toolResult meta r) =
        ContentPart.toolResult meta "[pruned]") ∧
      (∀ m, (pruneMessage m).role = m.role) ∧
      (∀ role ps, pruneMessage ⟨role, Content.parts ps⟩ =
        ⟨role, Content.parts (ps.map pruneContentPart)⟩) ∧
      (pruneToolResults est prot minSavings msgs).tokensSaved =
        pruneSavings est (findBoundary est prot msgs) msgs ∧
      ((∀ l, est l = (l.map (fun m => est [m])).sum) →
        (pruneToolResults est prot minSavings msgs).tokensSaved =
          est msgs - est (pruneToolResults est prot minSavings msgs).messages) := by
  have hb := findBoundary_le est prot msgs
  have hred : pruneToolResults est prot minSavings msgs =
      ⟨prunedMessages (findBoundary est prot msgs) msgs,
        pruneSavings est (findBoundary est prot msgs) msgs,
        pruneModified (findBoundary est prot msgs) msgs⟩ := by
    simp [pruneToolResults, not_lt.mpr h, Int.not_lt.mpr h]
  rw [hred]
  have hlen : ((msgs.take (findBoundary est prot msgs)).map
      (fun m => if m.role = Role.tool then pruneMessage m else m)).length =
      findBoundary est prot msgs := by
    simp [List.length_take, Nat.min_eq_left hb]
  refine ⟨?_, ?_, fun meta r => rfl, ?_, fun role ps => rfl, rfl, ?_⟩
  · simpa [prunedMessages] using List.drop_left' hlen
  · simpa [prunedMessages] using List.take_left' hlen
  · intro m
    cases m with
    | mk role content => cases content <;> rfl
  · intro hadd
    simpa using pruneSavings_additive est hadd (findBoundary est prot msgs) msgs

/-- Character length of one content part's payload fields. -/
def contentPartLen : ContentPart → Nat
  | .toolResult meta r => meta.length + r.length
  | .otherPart p => p.length

/-- Character length of a message content. -/
def contentLen : Content → Nat
  | .text s => s.length
  | .parts ps => (ps.map contentPartLen).sum

/-- Total payload character length of a message list. -/
def totalLen (msgs : List Message) : Nat :=
  (msgs.map (fun m => contentLen m.content)).sum

/-- A configured estimator in the style of the default
`ceil(serialized length / 4)` estimator: the ceiling is taken over the whole
list's length, so it is not additive across messages. -/
def ceilQuarterEstimator (msgs : List Message) : Int :=
  ((totalLen msgs + 3) / 4 : Nat)

/-- A configured estimator that is additive across messages. -/
def lenEstimator (msgs : List Message) : Int :=
  (totalLen msgs : Nat)

/-- A `tool`-role message with one tool-result part carrying payload `s`. -/
def exToolMsg (s : String) : Message :=
  ⟨Role.tool, Content.parts [ContentPart.toolResult "" s]⟩

/-- The history used by the C4 counterexample and witness: two old tool-result
messages outside the protection boundary and one recent tool-result message
inside it. -/
def exPruneMsgs : List Message :=
  [exToolMsg "aaaaaaaaaaaaa", exToolMsg "aaaaaaaaaaaaa", exToolMsg "aa"]

/-- C4 counterexample: with the configured ceiling-style estimator and the
boundary covering exactly the last tool-result message, pruning applies
(savings 4 meet the minimum 1) but the reported `tokensSaved` (4, the sum of
per-message estimate decreases) differs from the pre-prune estimate minus the
post-prune estimate of the whole history (7 − 5 = 2), so the claim's
`tokensPruned` equation fails at this input. -/
theorem pruneToolResults_roundtrip_counterexample :
    (pruneToolResults ceilQuarterEstimator 1 1 exPruneMsgs).tokensSaved = 4 ∧
      ceilQuarterEstimator exPruneMsgs -
        ceilQuarterEstimator (pruneToolResults ceilQuarterEstimator 1 1 exPruneMsgs).messages
        = 2 ∧
      ¬ ((pruneToolResults ceilQuarterEstimator 1 1 exPruneMsgs).tokensSaved =
        ceilQuarterEstimator exPruneMsgs -
          ceilQuarterEstimator
            (pruneToolResults ceilQuarterEstimator 1 1 exPruneMsgs).messages) := by
  refine ⟨by decide, by decide, by decide⟩

/-- C4 witness: an additive configured estimator on the same history; the
pruning applies, protected messages are unchanged, eligible payloads become
the placeholder, and the reported savings equal the whole-history estimate
difference. -/
theorem pruneToolResults_roundtrip_witness :
    (1 ≤ pruneSavings lenEstimator (findBoundary lenEstimator 1 exPruneMsgs) exPruneMsgs) ∧
      ((pruneToolResults lenEstimator 1 1 exPruneMsgs).messages.drop
          (findBoundary lenEstimator 1 exPruneMsgs) =
          exPruneMsgs.drop (findBoundary lenEstimator 1 exPruneMsgs) ∧
        (pruneToolResults lenEstimator 1 1 exPruneMsgs).messages.take
            (findBoundary lenEstimator 1 exPruneMsgs) =
          (exPruneMsgs.take (findBoundary lenEstimator 1 exPruneMsgs)).map
            (fun m => if m.role = Role.tool then pruneMessage m else m) ∧
        (∀ meta r, pruneContentPart (ContentPart.toolResult meta r) =
          ContentPart.toolResult meta "[pruned]") ∧
        (∀ m, (pruneMessage m).role = m.role) ∧
        (∀ role ps, pruneMessage ⟨role, Content.parts ps⟩ =
          ⟨role, Content.parts (ps.map pruneContentPart)⟩) ∧
        (pruneToolResults lenEstimator 1 1 exPruneMsgs).tokensSaved =
          pruneSavings lenEstimator (findBoundary lenEstimator 1 exPruneMsgs) exPruneMsgs ∧
        ((∀ l, lenEstimator l = (l.map (fun m => lenEstimator [m])).sum) →
          (pruneToolResults lenEstimator 1 1 exPruneMsgs).tokensSaved =
            lenEstimator exPruneMsgs -
              lenEstimator (pruneToolResults lenEstimator 1 1 exPruneMsgs).messages)) :=
  ⟨by decide, pruneToolResults_roundtrip lenEstimator 1 1 exPruneMsgs (by decide)⟩

/-- C7: when pruning does not clear the minimum-savings threshold,
`DefaultCompactionStrategy.compact` returns exactly one synthetic user
message embedding the generated summary between the continuation-context
markers, with `messagesRemoved` equal to the original message count minus
one and the summary text returned in the result. -/
theorem compact_summarizes (est : List Message → Int) (prot minPruneSavings : Int)
    (summarize : List Message → String) (msgs : List Message)
    (h : (pruneToolResults est prot minPruneSavings msgs).tokensSaved < minPruneSavings) :
    DefaultCompactionStrategy.compact est prot minPruneSavings summarize msgs =
      ⟨[summaryMessage (summarize msgs)], some (summarize msgs), msgs.length - 1,
        est msgs - est [summaryMessage (summarize msgs)]⟩ ∧
      (summaryMessage (summarize msgs)).role = Role.user ∧
      (summaryMessage (summarize msgs)).content =
        Content.text ("[Previous conversation summary]\n\n" ++ summarize msgs ++
          "\n\n[The conversation continues from here]") := by
  unfold DefaultCompactionStrategy.compact
  rw [if_neg (not_le.mpr h)]
  exact ⟨rfl, rfl, rfl⟩

/-- C7 witness: a concrete configuration where pruning saves nothing and the
minimum is positive, so compaction returns the single summary message. -/
theorem compact_summarizes_witness :
    ((pruneToolResults (fun _ => (0 : Int)) 0 5
        [⟨Role.user, Content.text "m"⟩]).tokensSaved < 5) ∧
      (DefaultCompactionStrategy.compact (fun _ => (0 : Int)) 0 5 (fun _ => "S")
          [⟨Role.user, Content.text "m"⟩] =
        ⟨[summaryMessage "S"], some "S", 0, 0⟩ ∧
        (summaryMessage "S").role = Role.user ∧
        (summaryMessage "S").content =
          Content.text ("[Previous conversation summary]\n\nS\n\n[The conversation continues from here]")) := by
  constructor
  · decide
  · have h := compact_summarizes (fun _ => (0 : Int)) 0 5 (fun _ => "S")
      [⟨Role.user, Content.text "m"⟩] (by decide)
    simpa using h

/-- C10: pruning is all-or-nothing.  When the accumulated savings fall below
the configured minimum, `pruneToolResults` returns the original input list
unchanged with zero reported savings and zero messages modified; and — for a
positive configured minimum — `DefaultCompactionStrategy.compact` then
proceeds to summarization, returning only the single summary message, never
a partially pruned history below the threshold. -/
theorem pruning_all_or_nothing :
    (∀ (est : List Message → Int) (prot minSavings : Int) (msgs : List Message),
        pruneSavings est (findBoundary est prot msgs) msgs < minSavings →
        pruneToolResults est prot minSavings msgs = ⟨msgs, 0, 0⟩) ∧
      (∀ (est : List Message → Int) (prot minSavings : Int)
          (summarize : List Message → String) (msgs : List Message),
        0 < minSavings →
        pruneSavings est (findBoundary est prot msgs) msgs < minSavings →
        (DefaultCompactionStrategy.compact est prot minSavings summarize msgs).messages =
            [summaryMessage (summarize msgs)] ∧
          (DefaultCompactionStrategy.compact est prot minSavings summarize msgs).summary =
            some (summarize msgs)) := by
  constructor
  · intro est prot minSavings msgs h
    simp [pruneToolResults, h]
  · intro est prot minSavings summarize msgs hpos h
    have hz : (pruneToolResults est prot minSavings msgs).tokensSaved = 0 := by
      simp [pruneToolResults, h]
    simp [DefaultCompactionStrategy.compact, hz, if_neg (not_le.mpr hpos)]

/-- C10 witness: a concrete configuration where the savings fall below the
minimum; pruning returns the original history with zero counters and
compaction proceeds to the summary message. -/
theorem pruning_all_or_nothing_witness :
    (pruneSavings (fun _ => (0 : Int))
        (findBoundary (fun _ => (0 : Int)) 2 [⟨Role.tool, Content.text "t"⟩])
        [⟨Role.tool, Content.text "t"⟩] < 7) ∧
      pruneToolResults (fun _ => (0 : Int)) 2 7 [⟨Role.tool, Content.text "t"⟩] =
        ⟨[⟨Role.tool, Content.text "t"⟩], 0, 0⟩ ∧
      (0 : Int) < 7 ∧
      (DefaultCompactionStrategy.compact (fun _ => (0 : Int)) 2 7 (fun _ => "sum")
          [⟨Role.tool, Content.text "t"⟩]).messages = [summaryMessage "sum"] ∧
      (DefaultCompactionStrategy.compact (fun _ => (0 : Int)) 2 7 (fun _ => "sum")
          [⟨Role.tool, Content.text "t"⟩]).summary = some "sum" := by
  refine ⟨by decide, ?_, by decide, ?_, ?_⟩
  · exact pruning_all_or_nothing.1 (fun _ => (0 : Int)) 2 7 [⟨Role.tool, Content.text "t"⟩]
      (by decide)
  · exact (pruning_all_or_nothing.2 (fun _ => (0 : Int)) 2 7 (fun _ => "sum")
      [⟨Role.tool, Content.text "t"⟩] (by decide) (by decide)).1
  · exact (pruning_all_or_nothing.2 (fun _ => (0 : Int)) 2 7 (fun _ => "sum")
      [⟨Role.tool, Content.text "t"⟩] (by decide) (by decide)).2

/-- Session-level events surfaced by `Session.send` (src/session.ts).
Agent events forwarded unchanged by `send` are wrapped in `agent`.
Compaction events are not modelled here: the retry-loop claims are settled
against the default configuration, in which auto-compaction is off
(no `contextWindow`). -/
inductive SessionEvent
  | agent (e : AgentEvent)
  | turnStart (turnNumber : Nat)
  | turnDone (turnNumber : Nat) (usage : TokenUsage)
  | retry (attempt maxRetries : Nat) (delayMs : Nat) (error : Fault)
deriving DecidableEq

/-- Retry configuration (`RetryConfig`, src/session.ts).  `getRetryDelay`
mixes the `retry-after` header, exponential backoff and random jitter; the
computed delay is abstracted as the function `delayFn` of the attempt index
and the error. -/
structure RetryCfg where
  maxRetries : Nat
  isRetryable : Fault → Bool
  delayFn : Nat → Fault → Nat

/-- The session state touched by the retry loop of `Session.send`. -/
structure SendState where
  messages : List Message
  lastInputTokens : Nat
  turnUsage : TokenUsage
deriving DecidableEq

/-- The behaviour of one attempt's agent generator: the events it yields,
and the fault it throws after them (`none` when the generator returns
normally). -/
structure Attempt where
  events : List AgentEvent
  thrown : Option Fault

/-- How one attempt of the retry loop ended: the loop broke out normally
(`finished`, after a `done` event or an exhausted stream), the attempt is to
be retried (`retried`), or the fault was rethrown to the caller (`threw`). -/
inductive AttemptOutcome
  | finished
  | retried
  | threw (f : Fault)
deriving DecidableEq

/-- One attempt of the retry loop of `Session.send` (src/session.ts): the
`for await (const event of this.agent.run(...))` body for attempt index
`attempt`, with `hc` the running `hasYieldedContent` flag and `snapshot` the
pre-attempt copy of `this.messages`.  A fault thrown by the generator is
reached only when the iteration was not broken out of earlier; the catch
branch then either retries under the same condition or rethrows.  Hooks and
the store are at their defaults (absent) and the abort signal is not
modelled, so the backoff sleep returns normally. -/
def attemptLoop (cfg : RetryCfg) (snapshot : List Message) (attempt : Nat) :
    Bool → SendState → List AgentEvent → Option Fault →
    List SessionEvent × SendState × AttemptOutcome
  | _, st, [], none => ([], st, .finished)
  | hc, st, [], some f =>
      if !hc && cfg.isRetryable f && decide (attempt < cfg.maxRetries) then
        ([.retry attempt cfg.maxRetries (cfg.delayFn attempt f) f],
          { st with messages := snapshot }, .retried)
      else ([], st, .threw f)
  | _, st, .textDelta t :: rest, thrown =>
      let r := attemptLoop cfg snapshot attempt true st rest thrown
      (.agent (.textDelta t) :: r.1, r.2)
  | _, st, .toolStart id name input :: rest, thrown =>
      let r := attemptLoop cfg snapshot attempt true st rest thrown
      (.agent (.toolStart id name input) :: r.1, r.2)
  | hc, st, .stepDone n u fr :: rest, thrown =>
      let r := attemptLoop cfg snapshot attempt hc
        { st with lastInputTokens := u.inputTokens.getD 0 } rest thrown
      (.agent (.stepDone n u fr) :: r.1, r.2)
  | hc, st, .error f :: rest, thrown =>
      if !hc && cfg.isRetryable f && decide (attempt < cfg.maxRetries) then
        ([.retry attempt cfg.maxRetries (cfg.delayFn attempt f) f],
          { st with messages := snapshot }, .retried)
      else
        let r := attemptLoop cfg snapshot attempt hc st rest thrown
        (.agent (.error f) :: r.1, r.2)
  | _, st, .done res m u :: _, _ =>
      ([.agent (.done res m u)], { st with messages := m, turnUsage := u }, .finished)
  | hc, st, .textDone t :: rest, thrown =>
      let r := attemptLoop cfg snapshot attempt hc st rest thrown
      (.agent (.textDone t) :: r.1, r.2)
  | hc, st, .reasoningDelta t :: rest, thrown =>
      let r := attemptLoop cfg snapshot attempt hc st rest thrown
      (.agent (.reasoningDelta t) :: r.1, r.2)
  | hc, st, .reasoningDone t :: rest, thrown =>
      let r := attemptLoop cfg snapshot attempt hc st rest thrown
      (.agent (.reasoningDone t) :: r.1, r.2)
  | hc, st, .toolDone id name output :: rest, thrown =>
      let r := attemptLoop cfg snapshot attempt hc st rest thrown
      (.agent (.toolDone id name output) :: r.1, r.2)
  | hc, st, .toolError id name err :: rest, thrown =>
      let r := attemptLoop cfg snapshot attempt hc st rest thrown
      (.agent (.toolError id name err) :: r.1, r.2)
  | hc, st, .stepStart n :: rest, thrown =>
      let r := attemptLoop cfg snapshot attempt hc st rest thrown
      (.agent (.stepStart n) :: r.1, r.2)

/-- The `for (let attempt = 0; attempt <= maxRetries; attempt++)` loop of
`Session.send`.  `fuel` bounds the remaining iterations (the loop runs at
most `maxRetries + 1` times) and `attempts n` is the behaviour of the agent
generator on attempt `n`.  A fault that is not retried is rethrown, modelled
as `Except.error`. -/
def sendLoop (cfg : RetryCfg) (snapshot : List Message) (attempts : Nat → Attempt) :
    Nat → Nat → SendState → Except Fault (List SessionEvent × SendState)
  | 0, _, st => .ok ([], st)
  | fuel + 1, attempt, st =>
      let r := attemptLoop cfg snapshot attempt false st (attempts attempt).events
        (attempts attempt).thrown
      match r.2.2 with
      | .finished => .ok (r.1, r.2.1)
      | .threw f => .error f
      | .retried =>
          match sendLoop cfg snapshot attempts fuel (attempt + 1) r.2.1 with
          | .ok (evs, st') => .ok (r.1 ++ evs, st')
          | .error f => .error f

/-- `Session.send` (src/session.ts) with the default configuration (no
hooks, no store, no auto-compaction): emit `turn.start`, run the retry loop
from attempt 0 against the pre-send snapshot of the messages, then emit
`turn.done` with the turn usage. -/
def Session.send (cfg : RetryCfg) (turnNumber : Nat) (msgs : List Message)
    (attempts : Nat → Attempt) : Except Fault (List SessionEvent × SendState) :=
  match sendLoop cfg msgs attempts (cfg.maxRetries + 1) 0 ⟨msgs, 0, TokenUsage.unset⟩ with
  | .ok (evs, st) =>
      .ok (SessionEvent.turnStart turnNumber :: evs ++
        [SessionEvent.turnDone turnNumber st.turnUsage], st)
  | .error f => .error f

/-- The attempt behaviour produced by driving `Agent.run`: the events of the
run, and no thrown fault — the run's catch block converts every streaming
fault into the `error`/`done(error)` event pair instead of throwing. -/
def agentAttempt (history : List Message) (input : RunInput) (parts : List StreamPart)
    (fault : Option Fault) : Attempt :=
  ⟨(Agent.run history input parts fault).1, none⟩

/-- Events that set `hasYieldedContent` in `Session.send`. -/
def isContentEvent : AgentEvent → Bool
  | .textDelta _ => true
  | .toolStart _ _ _ => true
  | _ => false

/-- Recognizer for `error` events. -/
def isErrorEvent : AgentEvent → Bool
  | .error _ => true
  | _ => false

/-- Recognizer for session `retry` events. -/
def isRetryEvent : SessionEvent → Bool
  | .retry _ _ _ _ => true
  | _ => false

theorem attemptLoop_content_no_retry (cfg : RetryCfg) (snapshot : List Message)
    (attempt : Nat) (events : List AgentEvent) (thrown : Option Fault) :
    ∀ st, (attemptLoop cfg snapshot attempt true st events thrown).1.countP isRetryEvent = 0 ∧
      (attemptLoop cfg snapshot attempt true st events thrown).2.2 ≠
        AttemptOutcome.retried := by
  induction events with
  | nil =>
      intro st
      cases thrown <;> simp [attemptLoop, isRetryEvent]
  | cons e rest ih =>
      intro st
      cases e with
      | textDelta t =>
          obtain ⟨h1, h2⟩ := ih st
          exact ⟨by simp only [attemptLoop, List.countP_cons]; simp [isRetryEvent, h1],
            by simp only [attemptLoop]; exact h2⟩
      | toolStart id name input =>
          obtain ⟨h1, h2⟩ := ih st
          exact ⟨by simp only [attemptLoop, List.countP_cons]; simp [isRetryEvent, h1],
            by simp only [attemptLoop]; exact h2⟩
      | stepDone n u fr =>
          obtain ⟨h1, h2⟩ := ih { st with lastInputTokens := u.inputTokens.getD 0 }
          exact ⟨by simp only [attemptLoop, List.countP_cons]; simp [isRetryEvent, h1],
            by simp only [attemptLoop]; exact h2⟩
      | error f =>
          obtain ⟨h1, h2⟩ := ih st
          constructor
          · simp only [attemptLoop]
            rw [if_neg (by simp)]
            simp only [List.countP_cons]
            simp [isRetryEvent, h1]
          · simp only [attemptLoop]
            rw [if_neg (by simp)]
            exact h2
      | done res m u =>
          exact ⟨by simp only [attemptLoop, List.countP_cons]; simp [isRetryEvent],
            by simp [attemptLoop]⟩
      | textDone t =>
          obtain ⟨h1, h2⟩ := ih st
          exact ⟨by simp only [attemptLoop, List.countP_cons]; simp [isRetryEvent, h1],
            by simp only [attemptLoop]; exact h2⟩
      | reasoningDelta t =>
          obtain ⟨h1, h2⟩ := ih st
          exact ⟨by simp only [attemptLoop, List.countP_cons]; simp [isRetryEvent, h1],
            by simp only [attemptLoop]; exact h2⟩
      | reasoningDone t =>
          obtain ⟨h1, h2⟩ := ih st
          exact ⟨by simp only [attemptLoop, List.countP_cons]; simp [isRetryEvent, h1],
            by simp only [attemptLoop]; exact h2⟩
      | toolDone id name output =>
          obtain ⟨h1, h2⟩ := ih st
          exact ⟨by simp only [attemptLoop, List.countP_cons]; simp [isRetryEvent, h1],
            by simp only [attemptLoop]; exact h2⟩
      | toolError id name err =>
          obtain ⟨h1, h2⟩ := ih st
          exact ⟨by simp only [attemptLoop, List.countP_cons]; simp [isRetryEvent, h1],
            by simp only [attemptLoop]; exact h2⟩
      | stepStart n =>
          obtain ⟨h1, h2⟩ := ih st
          exact ⟨by simp only [attemptLoop, List.countP_cons]; simp [isRetryEvent, h1],
            by simp only [attemptLoop]; exact h2⟩

theorem attemptLoop_error_done_skip_retry (cfg : RetryCfg) (snapshot : List Message)
    (attempt : Nat) (hc : Bool) (st : SendState) (f : Fault) (m : List Message)
    (u : TokenUsage) (rest : List AgentEvent) (thrown : Option Fault)
    (hcond : hc = true ∨ ¬ attempt < cfg.maxRetries) :
    attemptLoop cfg snapshot attempt hc st
        (AgentEvent.error f :: AgentEvent.done RunResult.error m u :: rest) thrown =
      ([SessionEvent.agent (AgentEvent.error f),
          SessionEvent.agent (AgentEvent.done RunResult.error m u)],
        { st with messages := m, turnUsage := u }, AttemptOutcome.finished) := by
  have hif : (!hc && cfg.isRetryable f && decide (attempt < cfg.maxRetries)) = false := by
    rcases hcond with h | h <;> simp [h]
  simp [attemptLoop, hif]

theorem attemptLoop_error_done_forward (cfg : RetryCfg) (snapshot : List Message)
    (attempt : Nat) (f : Fault) (m : List Message) (u : TokenUsage)
    (rest : List AgentEvent) (thrown : Option Fault) :
    ∀ (pre : List AgentEvent) (hc : Bool) (st : SendState),
      (∀ e ∈ pre, isErrorEvent e = false ∧ isDoneEvent e = false) →
      (hc = true ∨ ¬ attempt < cfg.maxRetries ∨ ∃ e ∈ pre, isContentEvent e = true) →
      (attemptLoop cfg snapshot attempt hc st
          (pre ++ AgentEvent.error f :: AgentEvent.done RunResult.error m u :: rest)
          thrown).1 =
          pre.map SessionEvent.agent ++
            [SessionEvent.agent (AgentEvent.error f),
              SessionEvent.agent (AgentEvent.done RunResult.error m u)] ∧
        (attemptLoop cfg snapshot attempt hc st
          (pre ++ AgentEvent.error f :: AgentEvent.done RunResult.error m u :: rest)
          thrown).2.2 = AttemptOutcome.finished ∧
        (attemptLoop cfg snapshot attempt hc st
          (pre ++ AgentEvent.error f :: AgentEvent.done RunResult.error m u :: rest)
          thrown).2.1.messages = m := by
  intro pre
  induction pre with
  | nil =>
      intro hc st hpre hcond
      have hcond' : hc = true ∨ ¬ attempt < cfg.maxRetries := by
        rcases hcond with h | h | ⟨e, he, _⟩
        · exact Or.inl h
        · exact Or.inr h
        · exact absurd he (List.not_mem_nil e)
      rw [List.nil_append,
        attemptLoop_error_done_skip_retry cfg snapshot attempt hc st f m u rest thrown hcond']
      simp
  | cons e pre ih =>
      intro hc st hpre hcond
      have he := hpre e (List.mem_cons_self e pre)
      have hpre' : ∀ x ∈ pre, isErrorEvent x = false ∧ isDoneEvent x = false :=
        fun x hx => hpre x (List.mem_cons_of_mem e hx)
      have hcond' : isContentEvent e = false →
          (∀ hc' : Bool, hc' = hc →
            hc' = true ∨ ¬ attempt < cfg.maxRetries ∨ ∃ x ∈ pre, isContentEvent x = true) := by
        intro hce hc' hhc
        subst hhc
        rcases hcond with h | h | ⟨x, hx, hcx⟩
        · exact Or.inl h
        · exact Or.inr (Or.inl h)
        · rcases List.mem_cons.mp hx with rfl | hx'
          · rw [hce] at hcx; exact absurd hcx (by simp)
          · exact Or.inr (Or.inr ⟨x, hx', hcx⟩)
      cases e with
      | textDelta t =>
          obtain ⟨h1, h2, h3⟩ := ih true st hpre' (Or.inl rfl)
          refine ⟨?_, ?_, ?_⟩ <;> simp [attemptLoop, h1, h2, h3]
      | toolStart id name input =>
          obtain ⟨h1, h2, h3⟩ := ih true st hpre' (Or.inl rfl)
          refine ⟨?_, ?_, ?_⟩ <;> simp [attemptLoop, h1, h2, h3]
      | stepDone n u' fr =>
          obtain ⟨h1, h2, h3⟩ := ih hc { st with lastInputTokens := u'.inputTokens.getD 0 }
            hpre' (hcond' rfl hc rfl)
          refine ⟨?_, ?_, ?_⟩ <;> simp [attemptLoop, h1, h2, h3]
      | error f' => simp [isErrorEvent] at he
      | done res m' u' => simp [isDoneEvent] at he
      | textDone t =>
          obtain ⟨h1, h2, h3⟩ := ih hc st hpre' (hcond' rfl hc rfl)
          refine ⟨?_, ?_, ?_⟩ <;> simp [attemptLoop, h1, h2, h3]
      | reasoningDelta t =>
          obtain ⟨h1, h2, h3⟩ := ih hc st hpre' (hcond' rfl hc rfl)
          refine ⟨?_, ?_, ?_⟩ <;> simp [attemptLoop, h1, h2, h3]
      | reasoningDone t =>
          obtain ⟨h1, h2, h3⟩ := ih hc st hpre' (hcond' rfl hc rfl)
          refine ⟨?_, ?_, ?_⟩ <;> simp [attemptLoop, h1, h2, h3]
      | toolDone id name output =>
          obtain ⟨h1, h2, h3⟩ := ih hc st hpre' (hcond' rfl hc rfl)
          refine ⟨?_, ?_, ?_⟩ <;> simp [attemptLoop, h1, h2, h3]
      | toolError id name err =>
          obtain ⟨h1, h2, h3⟩ := ih hc st hpre' (hcond' rfl hc rfl)
          refine ⟨?_, ?_, ?_⟩ <;> simp [attemptLoop, h1, h2, h3]
      | stepStart n =>
          obtain ⟨h1, h2, h3⟩ := ih hc st hpre' (hcond' rfl hc rfl)
          refine ⟨?_, ?_, ?_⟩ <;> simp [attemptLoop, h1, h2, h3]

theorem attemptLoop_early_error_retry (cfg : RetryCfg) (snapshot : List Message)
    (attempt : Nat) (f : Fault) (rest : List AgentEvent) (thrown : Option Fault)
    (hr : cfg.isRetryable f = true) (hlt : attempt < cfg.maxRetries) :
    ∀ (pre : List AgentEvent) (st : SendState),
      (∀ e ∈ pre, isContentEvent e = false ∧ isErrorEvent e = false ∧
        isDoneEvent e = false) →
      (attemptLoop cfg snapshot attempt false st (pre ++ AgentEvent.error f :: rest)
          thrown).1 =
          pre.map SessionEvent.agent ++
            [SessionEvent.retry attempt cfg.maxRetries (cfg.delayFn attempt f) f] ∧
        (attemptLoop cfg snapshot attempt false st (pre ++ AgentEvent.error f :: rest)
          thrown).2.1.messages = snapshot ∧
        (attemptLoop cfg snapshot attempt false st (pre ++ AgentEvent.error f :: rest)
          thrown).2.2 = AttemptOutcome.retried := by
  intro pre
  induction pre with
  | nil =>
      intro st hpre
      simp [attemptLoop, hr, hlt]
  | cons e pre ih =>
      intro st hpre
      have he := hpre e (List.mem_cons_self e pre)
      have hpre' : ∀ x ∈ pre, isContentEvent x = false ∧ isErrorEvent x = false ∧
          isDoneEvent x = false := fun x hx => hpre x (List.mem_cons_of_mem e hx)
      cases e with
      | textDelta t => simp [isContentEvent] at he
      | toolStart id name input => simp [isContentEvent] at he
      | error f' => simp [isErrorEvent] at he
      | done res m u => simp [isDoneEvent] at he
      | stepDone n u fr =>
          obtain ⟨h1, h2, h3⟩ := ih { st with lastInputTokens := u.inputTokens.getD 0 } hpre'
          refine ⟨?_, ?_, ?_⟩ <;> simp only [List.cons_append, attemptLoop] <;>
            simp [h1, h2, h3]
      | textDone t =>
          obtain ⟨h1, h2, h3⟩ := ih st hpre'
          refine ⟨?_, ?_, ?_⟩ <;> simp only [List.cons_append, attemptLoop] <;>
            simp [h1, h2, h3]
      | reasoningDelta t =>
          obtain ⟨h1, h2, h3⟩ := ih st hpre'
          refine ⟨?_, ?_, ?_⟩ <;> simp only [List.cons_append, attemptLoop] <;>
            simp [h1, h2, h3]
      | reasoningDone t =>
          obtain ⟨h1, h2, h3⟩ := ih st hpre'
          refine ⟨?_, ?_, ?_⟩ <;> simp only [List.cons_append, attemptLoop] <;>
            simp [h1, h2, h3]
      | toolDone id name output =>
          obtain ⟨h1, h2, h3⟩ := ih st hpre'
          refine ⟨?_, ?_, ?_⟩ <;> simp only [List.cons_append, attemptLoop] <;>
            simp [h1, h2, h3]
      | toolError id name err =>
          obtain ⟨h1, h2, h3⟩ := ih st hpre'
          refine ⟨?_, ?_, ?_⟩ <;> simp only [List.cons_append, attemptLoop] <;>
            simp [h1, h2, h3]
      | stepStart n =>
          obtain ⟨h1, h2, h3⟩ := ih st hpre'
          refine ⟨?_, ?_, ?_⟩ <;> simp only [List.cons_append, attemptLoop] <;>
            simp [h1, h2, h3]

theorem attemptLoop_after_delta_no_retry (cfg : RetryCfg) (snapshot : List Message)
    (attempt : Nat) (t : String) (rest : List AgentEvent) (thrown : Option Fault) :
    ∀ (pre : List AgentEvent) (hc : Bool) (st : SendState),
      (∀ e ∈ pre, isErrorEvent e = false ∧ isDoneEvent e = false) →
      (attemptLoop cfg snapshot attempt hc st
          (pre ++ AgentEvent.textDelta t :: rest) thrown).1.countP isRetryEvent = 0 ∧
        (attemptLoop cfg snapshot attempt hc st
          (pre ++ AgentEvent.textDelta t :: rest) thrown).2.2 ≠
          AttemptOutcome.retried := by
  intro pre
  induction pre with
  | nil =>
      intro hc st hpre
      obtain ⟨h1, h2⟩ := attemptLoop_content_no_retry cfg snapshot attempt rest thrown st
      constructor
      · simp only [List.nil_append, attemptLoop, List.countP_cons]
        simp [isRetryEvent, h1]
      · simp only [List.nil_append, attemptLoop]
        exact h2
  | cons e pre ih =>
      intro hc st hpre
      have he := hpre e (List.mem_cons_self e pre)
      have hpre' : ∀ x ∈ pre, isErrorEvent x = false ∧ isDoneEvent x = false :=
        fun x hx => hpre x (List.mem_cons_of_mem e hx)
      cases e with
      | error f' => simp [isErrorEvent] at he
      | done res m u => simp [isDoneEvent] at he
      | textDelta t' =>
          obtain ⟨h1, h2⟩ := attemptLoop_content_no_retry cfg snapshot attempt
            (pre ++ AgentEvent.textDelta t :: rest) thrown st
          constructor
          · simp only [List.cons_append, attemptLoop, List.countP_cons]
            simp [isRetryEvent, h1]
          · simp only [List.cons_append, attemptLoop]
            exact h2
      | toolStart id name input =>
          obtain ⟨h1, h2⟩ := attemptLoop_content_no_retry cfg snapshot attempt
            (pre ++ AgentEvent.textDelta t :: rest) thrown st
          constructor
          · simp only [List.cons_append, attemptLoop, List.countP_cons]
            simp [isRetryEvent, h1]
          · simp only [List.cons_append, attemptLoop]
            exact h2
      | stepDone n u fr =>
          obtain ⟨h1, h2⟩ := ih hc { st with lastInputTokens := u.inputTokens.getD 0 } hpre'
          constructor
          · simp only [List.cons_append, attemptLoop, List.countP_cons]
            simp [isRetryEvent, h1]
          · simp only [List.cons_append, attemptLoop]
            exact h2
      | textDone t' =>
          obtain ⟨h1, h2⟩ := ih hc st hpre'
          constructor
          · simp only [List.cons_append, attemptLoop, List.countP_cons]
            simp [isRetryEvent, h1]
          · simp only [List.cons_append, attemptLoop]
            exact h2
      | reasoningDelta t' =>
          obtain ⟨h1, h2⟩ := ih hc st hpre'
          constructor
          · simp only [List.cons_append, attemptLoop, List.countP_cons]
            simp [isRetryEvent, h1]
          · simp only [List.cons_append, attemptLoop]
            exact h2
      | reasoningDone t' =>
          obtain ⟨h1, h2⟩ := ih hc st hpre'
          constructor
          · simp only [List.cons_append, attemptLoop, List.countP_cons]
            simp [isRetryEvent, h1]
          · simp only [List.cons_append, attemptLoop]
            exact h2
      | toolDone id name output =>
          obtain ⟨h1, h2⟩ := ih hc st hpre'
          constructor
          · simp only [List.cons_append, attemptLoop, List.countP_cons]
            simp [isRetryEvent, h1]
          · simp only [List.cons_append, attemptLoop]
            exact h2
      | toolError id name err =>
          obtain ⟨h1, h2⟩ := ih hc st hpre'
          constructor
          · simp only [List.cons_append, attemptLoop, List.countP_cons]
            simp [isRetryEvent, h1]
          · simp only [List.cons_append, attemptLoop]
            exact h2
      | stepStart n =>
          obtain ⟨h1, h2⟩ := ih hc st hpre'
          constructor
          · simp only [List.cons_append, attemptLoop, List.countP_cons]
            simp [isRetryEvent, h1]
          · simp only [List.cons_append, attemptLoop]
            exact h2

theorem attemptLoop_none_not_threw (cfg : RetryCfg) (snapshot : List Message)
    (attempt : Nat) :
    ∀ (events : List AgentEvent) (hc : Bool) (st : SendState) (f : Fault),
      (attemptLoop cfg snapshot attempt hc st events none).2.2 ≠
        AttemptOutcome.threw f := by
  intro events
  induction events with
  | nil => intro hc st f; simp [attemptLoop]
  | cons e rest ih =>
      intro hc st f
      cases e with
      | error f' =>
          simp only [attemptLoop]
          split
          · simp
          · simpa using ih hc st f
      | done res m u => simp [attemptLoop]
      | textDelta t => simpa only [attemptLoop] using ih true st f
      | toolStart id name input => simpa only [attemptLoop] using ih true st f
      | stepDone n u fr =>
          simpa only [attemptLoop] using
            ih hc { st with lastInputTokens := u.inputTokens.getD 0 } f
      | textDone t => simpa only [attemptLoop] using ih hc st f
      | reasoningDelta t => simpa only [attemptLoop] using ih hc st f
      | reasoningDone t => simpa only [attemptLoop] using ih hc st f
      | toolDone id name output => simpa only [attemptLoop] using ih hc st f
      | toolError id name err => simpa only [attemptLoop] using ih hc st f
      | stepStart n => simpa only [attemptLoop] using ih hc st f

theorem sendLoop_none_ok (cfg : RetryCfg) (snapshot : List Message)
    (attempts : Nat → Attempt) (hth : ∀ n, (attempts n).thrown = none) :
    ∀ (fuel attempt : Nat) (st : SendState),
      ∃ out, sendLoop cfg snapshot attempts fuel attempt st = Except.ok out := by
  intro fuel
  induction fuel with
  | zero => intro attempt st; exact ⟨([], st), rfl⟩
  | succ fuel ih =>
      intro attempt st
      rcases hout : (attemptLoop cfg snapshot attempt false st (attempts attempt).events
          (attempts attempt).thrown).2.2 with _ | _ | f
      · exact ⟨_, by simp only [sendLoop]; rw [hout]⟩
      · obtain ⟨⟨evs, st'⟩, hok⟩ := ih (attempt + 1)
          (attemptLoop cfg snapshot attempt false st (attempts attempt).events
            (attempts attempt).thrown).2.1
        exact ⟨_, by simp only [sendLoop]; rw [hout, hok]⟩
      · rw [hth attempt] at hout
        exact absurd hout (attemptLoop_none_not_threw cfg snapshot attempt
          (attempts attempt).events false st f)

theorem sendLoop_retried_continues (cfg : RetryCfg) (snapshot : List Message)
    (attempts : Nat → Attempt) (fuel attempt : Nat) (st : SendState)
    (h : (attemptLoop cfg snapshot attempt false st (attempts attempt).events
        (attempts attempt).thrown).2.2 = AttemptOutcome.retried) :
    sendLoop cfg snapshot attempts (fuel + 1) attempt st =
      Except.map (fun r =>
          ((attemptLoop cfg snapshot attempt false st (attempts attempt).events
              (attempts attempt).thrown).1 ++ r.1, r.2))
        (sendLoop cfg snapshot attempts fuel (attempt + 1)
          (attemptLoop cfg snapshot attempt false st (attempts attempt).events
            (attempts attempt).thrown).2.1) := by
  simp only [sendLoop]
  rw [h]
  rcases sendLoop cfg snapshot attempts fuel (attempt + 1)
      (attemptLoop cfg snapshot attempt false st (attempts attempt).events
        (attempts attempt).thrown).2.1 with f | ⟨evs, st'⟩ <;> rfl

theorem countP_isRetry_map_agent (pre : List AgentEvent) :
    (pre.map SessionEvent.agent).countP isRetryEvent = 0 := by
  induction pre with
  | nil => rfl
  | cons e l ih => simp [List.countP_cons, isRetryEvent, ih]

/-- C2: in `Session.send`, an error event that arrives before any
`text.delta` or `tool.start` event of the current attempt, that satisfies the
retryable predicate, and whose attempt index is below `maxRetries`, yields
exactly one `retry` event carrying that attempt index, restores the session's
message list to the pre-attempt snapshot, and ends the attempt as `retried`,
upon which the loop continues with the next attempt; an error event arriving
after a `text.delta` has been emitted in the attempt triggers no retry. -/
theorem send_retry_boundary :
    (∀ (cfg : RetryCfg) (snapshot : List Message) (attempt : Nat) (st : SendState)
        (pre : List AgentEvent) (f : Fault) (rest : List AgentEvent)
        (thrown : Option Fault),
      (∀ e ∈ pre, isContentEvent e = false ∧ isErrorEvent e = false ∧
        isDoneEvent e = false) →
      cfg.isRetryable f = true → attempt < cfg.maxRetries →
      (attemptLoop cfg snapshot attempt false st (pre ++ AgentEvent.error f :: rest)
          thrown).1 =
          pre.map SessionEvent.agent ++
            [SessionEvent.retry attempt cfg.maxRetries (cfg.delayFn attempt f) f] ∧
        (attemptLoop cfg snapshot attempt false st (pre ++ AgentEvent.error f :: rest)
          thrown).1.countP isRetryEvent = 1 ∧
        (attemptLoop cfg snapshot attempt false st (pre ++ AgentEvent.error f :: rest)
          thrown).2.1.messages = snapshot ∧
        (attemptLoop cfg snapshot attempt false st (pre ++ AgentEvent.error f :: rest)
          thrown).2.2 = AttemptOutcome.retried) ∧
    (∀ (cfg : RetryCfg) (snapshot : List Message) (attempts : Nat → Attempt)
        (fuel attempt : Nat) (st : SendState),
      (attemptLoop cfg snapshot attempt false st (attempts attempt).events
          (attempts attempt).thrown).2.2 = AttemptOutcome.retried →
      sendLoop cfg snapshot attempts (fuel + 1) attempt st =
        Except.map (fun r =>
            ((attemptLoop cfg snapshot attempt false st (attempts attempt).events
                (attempts attempt).thrown).1 ++ r.1, r.2))
          (sendLoop cfg snapshot attempts fuel (attempt + 1)
            (attemptLoop cfg snapshot attempt false st (attempts attempt).events
              (attempts attempt).thrown).2.1)) ∧
    (∀ (cfg : RetryCfg) (snapshot : List Message) (attempt : Nat) (hc : Bool)
        (st : SendState) (pre : List AgentEvent) (t : String)
        (rest : List AgentEvent) (thrown : Option Fault),
      (∀ e ∈ pre, isErrorEvent e = false ∧ isDoneEvent e = false) →
      (attemptLoop cfg snapshot attempt hc st
          (pre ++ AgentEvent.textDelta t :: rest) thrown).1.countP isRetryEvent = 0 ∧
        (attemptLoop cfg snapshot attempt hc st
          (pre ++ AgentEvent.textDelta t :: rest) thrown).2.2 ≠
          AttemptOutcome.retried) := by
  refine ⟨?_, ?_, ?_⟩
  · intro cfg snapshot attempt st pre f rest thrown hpre hr hlt
    obtain ⟨h1, h2, h3⟩ :=
      attemptLoop_early_error_retry cfg snapshot attempt f rest thrown hr hlt pre st hpre
    refine ⟨h1, ?_, h2, h3⟩
    rw [h1]
    simp [List.countP_append, countP_isRetry_map_agent, List.countP_cons, isRetryEvent]
  · intro cfg snapshot attempts fuel attempt st h
    exact sendLoop_retried_continues cfg snapshot attempts fuel attempt st h
  · intro cfg snapshot attempt hc st pre t rest thrown hpre
    exact attemptLoop_after_delta_no_retry cfg snapshot attempt t rest thrown pre hc st hpre

/-- The concrete retry configuration of the session witnesses. -/
def cfgW : RetryCfg := ⟨3, fun _ => true, fun _ _ => 7⟩

/-- The concrete session state of the session witnesses. -/
def stW : SendState := ⟨[⟨Role.user, Content.text "u"⟩], 0, TokenUsage.unset⟩

/-- The concrete retryable fault of the session witnesses. -/
def fW : Fault := ⟨"Error", "429"⟩

/-- The concrete attempt behaviours of the session witnesses: every attempt
yields one retryable error event and throws nothing. -/
def attemptsW : Nat → Attempt := fun _ => ⟨[AgentEvent.error fW], none⟩

/-- C2 witness: a concrete early retryable error produces exactly one
`retry` event with attempt index 0, rolls back to the snapshot and makes the
loop continue; a concrete error after a `text.delta` produces no retry. -/
theorem send_retry_boundary_witness :
    ((∀ e ∈ [AgentEvent.stepStart 1], isContentEvent e = false ∧
        isErrorEvent e = false ∧ isDoneEvent e = false) ∧
      cfgW.isRetryable fW = true ∧ 0 < cfgW.maxRetries ∧
      ((attemptLoop cfgW [] 0 false stW
            ([AgentEvent.stepStart 1] ++ AgentEvent.error fW :: []) none).1 =
          [AgentEvent.stepStart 1].map SessionEvent.agent ++
            [SessionEvent.retry 0 cfgW.maxRetries (cfgW.delayFn 0 fW) fW] ∧
        (attemptLoop cfgW [] 0 false stW
          ([AgentEvent.stepStart 1] ++ AgentEvent.error fW :: []) none).1.countP
            isRetryEvent = 1 ∧
        (attemptLoop cfgW [] 0 false stW
          ([AgentEvent.stepStart 1] ++ AgentEvent.error fW :: []) none).2.1.messages = [] ∧
        (attemptLoop cfgW [] 0 false stW
          ([AgentEvent.stepStart 1] ++ AgentEvent.error fW :: []) none).2.2 =
          AttemptOutcome.retried)) ∧
    ((attemptLoop cfgW [] 0 false stW (attemptsW 0).events (attemptsW 0).thrown).2.2 =
        AttemptOutcome.retried ∧
      sendLoop cfgW [] attemptsW (3 + 1) 0 stW =
        Except.map (fun r =>
            ((attemptLoop cfgW [] 0 false stW (attemptsW 0).events
                (attemptsW 0).thrown).1 ++ r.1, r.2))
          (sendLoop cfgW [] attemptsW 3 1
            (attemptLoop cfgW [] 0 false stW (attemptsW 0).events
              (attemptsW 0).thrown).2.1)) ∧
    ((∀ e ∈ ([] : List AgentEvent), isErrorEvent e = false ∧ isDoneEvent e = false) ∧
      (attemptLoop cfgW [] 0 false stW
          ([] ++ AgentEvent.textDelta "hi" :: [AgentEvent.error fW]) none).1.countP
          isRetryEvent = 0 ∧
      (attemptLoop cfgW [] 0 false stW
          ([] ++ AgentEvent.textDelta "hi" :: [AgentEvent.error fW]) none).2.2 ≠
        AttemptOutcome.retried) :=
  ⟨⟨by decide, by decide, by decide,
      send_retry_boundary.1 cfgW [] 0 stW [AgentEvent.stepStart 1] fW [] none
        (by decide) (by decide) (by decide)⟩,
    ⟨by decide,
      send_retry_boundary.2.1 cfgW [] attemptsW 3 0 stW (by decide)⟩,
    ⟨by decide,
      send_retry_boundary.2.2 cfgW [] 0 false stW [] "hi" [AgentEvent.error fW] none
        (by decide)⟩⟩

/-- C6: failures reach the caller through the event stream.  (i)
`Session.send` driven by `Agent.run` attempts — whose generator never throws,
every streaming fault having been converted into the `error`/`done(error)`
event pair — always returns normally, never by a thrown fault; (ii) an error
event that is not retried because the retry budget is exhausted or because
visible content (a `text.delta` or `tool.start`) already streamed in the
attempt is forwarded to the caller, followed by the `done` event with result
`error`, and the attempt finishes normally with the done messages
installed. -/
theorem send_errors_via_stream :
    (∀ (cfg : RetryCfg) (turnNumber : Nat) (msgs : List Message) (input : RunInput)
        (partsOf : Nat → List StreamPart) (faultOf : Nat → Option Fault),
      ∃ out, Session.send cfg turnNumber msgs
        (fun n => agentAttempt msgs input (partsOf n) (faultOf n)) = Except.ok out) ∧
    (∀ (cfg : RetryCfg) (snapshot : List Message) (attempt : Nat) (st : SendState)
        (pre : List AgentEvent) (f : Fault) (m : List Message) (u : TokenUsage)
        (rest : List AgentEvent) (thrown : Option Fault),
      (∀ e ∈ pre, isErrorEvent e = false ∧ isDoneEvent e = false) →
      (¬ attempt < cfg.maxRetries ∨ ∃ e ∈ pre, isContentEvent e = true) →
      (attemptLoop cfg snapshot attempt false st
          (pre ++ AgentEvent.error f :: AgentEvent.done RunResult.error m u :: rest)
          thrown).1 =
          pre.map SessionEvent.agent ++
            [SessionEvent.agent (AgentEvent.error f),
              SessionEvent.agent (AgentEvent.done RunResult.error m u)] ∧
        (attemptLoop cfg snapshot attempt false st
          (pre ++ AgentEvent.error f :: AgentEvent.done RunResult.error m u :: rest)
          thrown).2.2 = AttemptOutcome.finished ∧
        (attemptLoop cfg snapshot attempt false st
          (pre ++ AgentEvent.error f :: AgentEvent.done RunResult.error m u :: rest)
          thrown).2.1.messages = m) := by
  constructor
  · intro cfg turnNumber msgs input partsOf faultOf
    obtain ⟨⟨evs, st⟩, hok⟩ := sendLoop_none_ok cfg msgs
      (fun n => agentAttempt msgs input (partsOf n) (faultOf n)) (fun n => rfl)
      (cfg.maxRetries + 1) 0 ⟨msgs, 0, TokenUsage.unset⟩
    exact ⟨_, by simp only [Session.send]; rw [hok]⟩
  · intro cfg snapshot attempt st pre f m u rest thrown hpre hcond
    refine attemptLoop_error_done_forward cfg snapshot attempt f m u rest thrown pre
      false st hpre ?_
    rcases hcond with h | h
    · exact Or.inr (Or.inl h)
    · exact Or.inr (Or.inr h)

/-- C6 witness: (i) a concrete send over agent-produced attempts returns
normally; (ii) a concrete exhausted-budget error event is forwarded followed
by its `done(error)` event. -/
theorem send_errors_via_stream_witness :
    (∃ out, Session.send cfgW 1 [] (fun n =>
        agentAttempt [] (RunInput.str "q") ((fun _ => []) n) ((fun _ => none) n)) =
      Except.ok out) ∧
    ((∀ e ∈ ([] : List AgentEvent), isErrorEvent e = false ∧ isDoneEvent e = false) ∧
      (¬ 3 < cfgW.maxRetries ∨ ∃ e ∈ ([] : List AgentEvent), isContentEvent e = true) ∧
      ((attemptLoop cfgW [] 3 false stW
          ([] ++ AgentEvent.error fW ::
            AgentEvent.done RunResult.error [⟨Role.user, Content.text "u"⟩]
              TokenUsage.unset :: []) none).1 =
          ([] : List AgentEvent).map SessionEvent.agent ++
            [SessionEvent.agent (AgentEvent.error fW),
              SessionEvent.agent (AgentEvent.done RunResult.error
                [⟨Role.user, Content.text "u"⟩] TokenUsage.unset)] ∧
        (attemptLoop cfgW [] 3 false stW
          ([] ++ AgentEvent.error fW ::
            AgentEvent.done RunResult.error [⟨Role.user, Content.text "u"⟩]
              TokenUsage.unset :: []) none).2.2 = AttemptOutcome.finished ∧
        (attemptLoop cfgW [] 3 false stW
          ([] ++ AgentEvent.error fW ::
            AgentEvent.done RunResult.error [⟨Role.user, Content.text "u"⟩]
              TokenUsage.unset :: []) none).2.1.messages =
          [⟨Role.user, Content.text "u"⟩])) :=
  ⟨send_errors_via_stream.1 cfgW 1 [] (RunInput.str "q") (fun _ => []) (fun _ => none),
    by decide, by decide,
    send_errors_via_stream.2 cfgW [] 3 stW [] fW [⟨Role.user, Content.text "u"⟩]
      TokenUsage.unset [] none (by decide) (by decide)⟩

/-- `ToolCallInfo` (src/cli.ts): the record handed to the approval callback. -/
structure ToolCallInfo where
  toolName : String
  toolCallId : String
  input : String

/-- Kind of a tool set entry: an ordinary tool, or the synthetic `task` tool
carrying the names of its configured subagents. -/
inductive ToolKind
  | primitive
  | task (subagentNames : List String)
deriving DecidableEq

/-- One tool of a tool set: its kind and its optional execute function,
taking the validated input and the tool-call id to a result or a thrown
fault. -/
structure Tool where
  kind : ToolKind
  execute : Option (String → String → Except Fault String)

/-- A tool set keyed by tool name (the `ToolSet` record of the `ai` SDK). -/
def ToolSet := String → Option Tool

/-- `ToolDeniedError` (src/cli.ts): name `ToolDeniedError` and a message
naming the denied tool. -/
def ToolDeniedError (toolName : String) : Fault :=
  ⟨"ToolDeniedError", "Tool call to \"" ++ toolName ++ "\" was denied."⟩

/-- `wrapToolsWithApproval` (src/cli.ts): every tool with an execute function
is replaced by one that first consults the approval callback and throws
`ToolDeniedError` on denial, otherwise runs the original execute; a tool
without an execute function is kept unchanged. -/
def wrapToolsWithApproval (tools : ToolSet) (approve : ToolCallInfo → Bool) : ToolSet :=
  fun name =>
    match tools name with
    | none => none
    | some t =>
        match t.execute with
        | none => some t
        | some ex => some { t with execute := some (fun input callId =>
            if approve ⟨name, callId, input⟩ then ex input callId
            else Except.error (ToolDeniedError name)) }

/-- Modelled from the spec: the provider-side tool dispatch of the `ai` SDK
(external to this repository's sources) runs a requested tool call through
the toolset's execute function and forwards a successful result as a
`tool-result` stream part and a thrown error as a `tool-error` stream part,
so the error is fed back to the model as a tool result and the turn is not
aborted.  A tool that is unknown or has no execute function produces no part
here; that case is not exercised by the claims. -/
def dispatchToolCall (tools : ToolSet) (callId name input : String) :
    Option StreamPart :=
  match tools name with
  | none => none
  | some t =>
      match t.execute with
      | none => none
      | some ex =>
          match ex input callId with
          | .ok out => some (.toolResult callId name out)
          | .error f => some (.toolError callId name f)

/-- C3: when the approval callback returns `false` for a tool call, the
wrapped tool throws the distinguishable `ToolDeniedError` whose message
names the tool; through the provider dispatch the denial becomes a
`tool-error` stream part — a tool result fed back to the model — rather than
an aborting fault; `Agent.run` surfaces it as a `tool.error` event for that
call, and the stream still ends with a single, final, normal `done` event. -/
theorem denied_tool_surfaces_and_run_completes (tools : ToolSet)
    (approve : ToolCallInfo → Bool) (t : Tool)
    (ex : String → String → Except Fault String) (callId name input : String)
    (history : List Message) (runInput : RunInput)
    (pre post : List StreamPart) (fr : String) (u : TokenUsage) (rm : List Message)
    (htool : tools name = some t) (hex : t.execute = some ex)
    (hdeny : approve ⟨name, callId, input⟩ = false)
    (hpre : ∀ p ∈ pre, isFinishPart p = false)
    (hpost : ∀ p ∈ post, isFinishPart p = false) :
    dispatchToolCall (wrapToolsWithApproval tools approve) callId name input =
        some (StreamPart.toolError callId name (ToolDeniedError name)) ∧
      (ToolDeniedError name).name = "ToolDeniedError" ∧
      (ToolDeniedError name).message = "Tool call to \"" ++ name ++ "\" was denied." ∧
      AgentEvent.toolError callId name (faultToString (ToolDeniedError name)) ∈
        (Agent.run history runInput
          (pre ++ StreamPart.toolError callId name (ToolDeniedError name) ::
            (post ++ [StreamPart.finish fr u rm])) none).1 ∧
      (Agent.run history runInput
          (pre ++ StreamPart.toolError callId name (ToolDeniedError name) ::
            (post ++ [StreamPart.finish fr u rm])) none).1.countP isDoneEvent = 1 ∧
      ∃ evs r m u', (Agent.run history runInput
          (pre ++ StreamPart.toolError callId name (ToolDeniedError name) ::
            (post ++ [StreamPart.finish fr u rm])) none).1 =
        evs ++ [AgentEvent.done r m u'] := by
  have hdisp : dispatchToolCall (wrapToolsWithApproval tools approve) callId name input =
      some (StreamPart.toolError callId name (ToolDeniedError name)) := by
    simp [dispatchToolCall, wrapToolsWithApproval, htool, hex, hdeny]
  have hwf : WellFormedStream
      (pre ++ StreamPart.toolError callId name (ToolDeniedError name) ::
        (post ++ [StreamPart.finish fr u rm])) none := by
    refine Or.inl ⟨rfl, pre ++ StreamPart.toolError callId name (ToolDeniedError name) ::
      post, fr, u, rm, by simp, ?_⟩
    intro p hp
    rcases List.mem_append.mp hp with hp | hp
    · exact hpre p hp
    · rcases List.mem_cons.mp hp with rfl | hp
      · rfl
      · exact hpost p hp
  obtain ⟨hcount, hends⟩ := run_wellformed_unique_done history runInput _ none hwf
  refine ⟨hdisp, rfl, rfl, ?_, hcount, hends⟩
  simp only [Agent.run, runParts_append]
  rw [runParts_cons]
  simp [processPart, List.mem_append]

/-- The concrete tool of the C3 witness. -/
def toolW : Tool := ⟨ToolKind.primitive, some (fun _ _ => Except.ok "ok")⟩

/-- The concrete tool set of the C3 witness. -/
def toolsW : ToolSet := fun n => if n = "write" then some toolW else none

/-- The concrete always-denying approval callback of the C3 witness. -/
def approveW : ToolCallInfo → Bool := fun _ => false

/-- C3 witness: a concrete denied call to the `write` tool yields the
denied `tool-error` part, the `tool.error` event and a final unique `done`
event. -/
theorem denied_tool_surfaces_and_run_completes_witness :
    (toolsW "write" = some toolW ∧ toolW.execute = some (fun _ _ => Except.ok "ok") ∧
      approveW ⟨"write", "c1", "in"⟩ = false) ∧
      (dispatchToolCall (wrapToolsWithApproval toolsW approveW) "c1" "write" "in" =
          some (StreamPart.toolError "c1" "write" (ToolDeniedError "write")) ∧
        (ToolDeniedError "write").name = "ToolDeniedError" ∧
        (ToolDeniedError "write").message = "Tool call to \"write\" was denied." ∧
        AgentEvent.toolError "c1" "write" (faultToString (ToolDeniedError "write")) ∈
          (Agent.run [] (RunInput.str "go")
            ([] ++ StreamPart.toolError "c1" "write" (ToolDeniedError "write") ::
              ([] ++ [StreamPart.finish "stop" TokenUsage.unset []])) none).1 ∧
        (Agent.run [] (RunInput.str "go")
            ([] ++ StreamPart.toolError "c1" "write" (ToolDeniedError "write") ::
              ([] ++ [StreamPart.finish "stop" TokenUsage.unset []])) none).1.countP
          isDoneEvent = 1 ∧
        ∃ evs r m u', (Agent.run [] (RunInput.str "go")
            ([] ++ StreamPart.toolError "c1" "write" (ToolDeniedError "write") ::
              ([] ++ [StreamPart.finish "stop" TokenUsage.unset []])) none).1 =
          evs ++ [AgentEvent.done r m u']) :=
  ⟨⟨rfl, rfl, rfl⟩,
    denied_tool_surfaces_and_run_completes toolsW approveW toolW
      (fun _ _ => Except.ok "ok") "c1" "write" "in" [] (RunInput.str "go") [] []
      "stop" TokenUsage.unset [] rfl rfl rfl (by decide) (by decide)⟩

/-- The `Agent` configuration record (src/cli.ts): the fields the
constructor stores.  The model is identified opaquely by a name; the
`onSubagentEvent` observer is fire-and-forget and carries no information
relevant to the claims, so it is omitted. -/
structure Agent where
  name : String
  description : Option String
  model : String
  systemPrompt : Option String
  tools : ToolSet
  maxSteps : Nat
  temperature : Option Int
  maxTokens : Option Nat
  instructions : Bool
  approve : Option (ToolCallInfo → Bool)

/-- The options record accepted by the `Agent` constructor (src/cli.ts). -/
structure AgentOptions where
  name : String
  description : Option String := none
  model : String
  systemPrompt : Option String := none
  tools : ToolSet := fun _ => none
  maxSteps : Option Nat := none
  temperature : Option Int := none
  maxTokens : Option Nat := none
  instructions : Option Bool := none
  approve : Option (ToolCallInfo → Bool) := none
  subagents : List Agent := []

/-- `createTaskTool` (src/cli.ts): the synthetic `task` tool over the given
subagents; its kind records the configured subagent names.  Its execute
drives a fresh child executor per invocation — behaviour modelled by
`childOfTemplate` and `taskToolResult` below — so the record itself carries
no execute function. -/
def createTaskTool (subagents : List Agent) : Tool :=
  ⟨ToolKind.task (subagents.map (fun a => a.name)), none⟩

/-- The `Agent` constructor (src/cli.ts): defaults `maxSteps` to 100 and
`instructions` to true, and — when subagents are provided — merges the
`task` tool into the copied toolset (the object spread puts `task` over any
existing tool of that name). -/
def mkAgent (o : AgentOptions) : Agent :=
  { name := o.name, description := o.description, model := o.model,
    systemPrompt := o.systemPrompt,
    tools := match o.subagents with
      | [] => o.tools
      | _ => fun n => if n = "task" then some (createTaskTool o.subagents) else o.tools n,
    maxSteps := o.maxSteps.getD 100,
    temperature := o.temperature, maxTokens := o.maxTokens,
    instructions := o.instructions.getD true,
    approve := o.approve }

/-- The fresh child executor constructed inside the `task` tool's execute for
one invocation (src/cli.ts): the template's name, model, system prompt,
toolset, step budget, temperature, token cap and instructions flag are
copied; no approve callback and no subagents are passed. -/
def childOfTemplate (template : Agent) : Agent :=
  mkAgent { name := template.name, model := template.model,
            systemPrompt := template.systemPrompt, tools := template.tools,
            maxSteps := some template.maxSteps, temperature := template.temperature,
            maxTokens := template.maxTokens,
            instructions := some template.instructions }

/-- The text carried by a `text.done` event. -/
def textDoneOf : AgentEvent → Option String
  | .textDone t => some t
  | _ => none

/-- Recognizer for `text.done` events. -/
def isTextDoneEvent : AgentEvent → Bool
  | .textDone _ => true
  | _ => false

/-- The result string assembled by the `task` tool's execute (src/cli.ts):
the text of the last `text.done` event of the child's run — or the
`(no output)` placeholder when there is none or it is empty (the JavaScript
`lastText || "(no output)"`) — wrapped in the task-result markers. -/
def taskResult (events : List AgentEvent) : String :=
  "<task_result>\n" ++
    (if (events.filterMap textDoneOf).getLastD "" = "" then "(no output)"
     else (events.filterMap textDoneOf).getLastD "") ++
    "\n</task_result>"

/-- One full `task` tool invocation: a fresh child executor runs from an
empty private history on the given prompt (its stream behaviour being
`parts`/`fault`), and the tool result is assembled from its events. -/
def taskToolResult (prompt : String) (parts : List StreamPart)
    (fault : Option Fault) : String :=
  taskResult (Agent.run [] (RunInput.str prompt) parts fault).1

theorem getLastD_append_singleton {α : Type _} (l : List α) (a : α) :
    ∀ d, (l ++ [a]).getLastD d = a := by
  induction l with
  | nil => intro d; rfl
  | cons x xs ih =>
      intro d
      rw [List.cons_append, List.getLastD_cons]
      exact ih x

/-- C8 (amended): every `task` tool invocation constructs a fresh child
executor copying the named template's model, tools, system prompt and step
budget (and name, temperature, token cap, instructions flag), with no
approval callback and constructed without subagents of its own — so no new
`task` tool is merged into it; because the toolset is copied verbatim, a
template that itself has subagents hands its own `task` tool to the child
(see the counterexample), so delegation depth is capped at one level only
when templates have no subagents.  The tool result is the child's final
`text.done` output, or the `(no output)` placeholder when the child produced
no (nonempty) text. -/
theorem task_tool_child_isolated :
    (∀ template : Agent,
      (childOfTemplate template).name = template.name ∧
        (childOfTemplate template).model = template.model ∧
        (childOfTemplate template).systemPrompt = template.systemPrompt ∧
        (childOfTemplate template).tools = template.tools ∧
        (childOfTemplate template).maxSteps = template.maxSteps ∧
        (childOfTemplate template).temperature = template.temperature ∧
        (childOfTemplate template).maxTokens = template.maxTokens ∧
        (childOfTemplate template).instructions = template.instructions ∧
        (childOfTemplate template).approve = none ∧
        (childOfTemplate template).description = none) ∧
    (∀ events : List AgentEvent,
      (∀ e ∈ events, isTextDoneEvent e = false) →
      taskResult events = "<task_result>\n(no output)\n</task_result>") ∧
    (∀ (events after : List AgentEvent) (t : String),
      (∀ e ∈ after, isTextDoneEvent e = false) → t ≠ "" →
      taskResult (events ++ AgentEvent.textDone t :: after) =
        "<task_result>\n" ++ t ++ "\n</task_result>") := by
  refine ⟨?_, ?_, ?_⟩
  · intro template
    exact ⟨rfl, rfl, rfl, rfl, rfl, rfl, rfl, rfl, rfl, rfl⟩
  · intro events h
    have hfm : events.filterMap textDoneOf = [] := by
      rw [List.filterMap_eq_nil_iff]
      intro e he
      have := h e he
      cases e <;> simp_all [isTextDoneEvent, textDoneOf]
    simp [taskResult, hfm]
  · intro events after t hafter ht
    have hfa : after.filterMap textDoneOf = [] := by
      rw [List.filterMap_eq_nil_iff]
      intro e he
      have := hafter e he
      cases e <;> simp_all [isTextDoneEvent, textDoneOf]
    have hfm : (events ++ AgentEvent.textDone t :: after).filterMap textDoneOf =
        events.filterMap textDoneOf ++ [t] := by
      rw [List.filterMap_append, List.filterMap_cons]
      simp [textDoneOf, hfa]
    simp [taskResult, hfm, getLastD_append_singleton, ht]

/-- A concrete subagent template with no subagents of its own. -/
def exSubagent : Agent := mkAgent { name := "x", model := "m" }

/-- A concrete template that itself has a subagent, so its toolset contains
its own `task` tool. -/
def exTemplate : Agent :=
  mkAgent { name := "parent", model := "m", subagents := [exSubagent] }

/-- C8 counterexample: the child constructed for a template that itself has
subagents inherits the template's `task` tool through the copied toolset, so
the child can delegate and delegation deeper than one level is possible,
contradicting the claim's "no subagent capability" as stated. -/
theorem task_tool_depth_counterexample :
    ((childOfTemplate exTemplate).tools "task").isSome = true ∧
      ((childOfTemplate exTemplate).tools "task").map Tool.kind =
        some (ToolKind.task ["x"]) :=
  ⟨rfl, rfl⟩

/-- C8 witness: the concrete child copies the template's configuration with
no approval callback; a run with no `text.done` yields the placeholder
result, and one with a final `text.done` yields that text. -/
theorem task_tool_child_isolated_witness :
    ((childOfTemplate exSubagent).name = exSubagent.name ∧
      (childOfTemplate exSubagent).model = exSubagent.model ∧
      (childOfTemplate exSubagent).systemPrompt = exSubagent.systemPrompt ∧
      (childOfTemplate exSubagent).tools = exSubagent.tools ∧
      (childOfTemplate exSubagent).maxSteps = exSubagent.maxSteps ∧
      (childOfTemplate exSubagent).temperature = exSubagent.temperature ∧
      (childOfTemplate exSubagent).maxTokens = exSubagent.maxTokens ∧
      (childOfTemplate exSubagent).instructions = exSubagent.instructions ∧
      (childOfTemplate exSubagent).approve = none ∧
      (childOfTemplate exSubagent).description = none) ∧
    ((∀ e ∈ [AgentEvent.stepStart 1], isTextDoneEvent e = false) ∧
      taskResult [AgentEvent.stepStart 1] = "<task_result>\n(no output)\n</task_result>") ∧
    ((∀ e ∈ [AgentEvent.stepDone 1 TokenUsage.unset "stop"], isTextDoneEvent e = false) ∧
      ("hello" : String) ≠ "" ∧
      taskResult ([AgentEvent.textDelta "hello"] ++ AgentEvent.textDone "hello" ::
          [AgentEvent.stepDone 1 TokenUsage.unset "stop"]) =
        "<task_result>\nhello\n</task_result>") :=
  ⟨task_tool_child_isolated.1 exSubagent,
    ⟨by decide, task_tool_child_isolated.2.1 [AgentEvent.stepStart 1] (by decide)⟩,
    ⟨by decide, by decide,
      task_tool_child_isolated.2.2 [AgentEvent.textDelta "hello"]
        [AgentEvent.stepDone 1 TokenUsage.unset "stop"] "hello" (by decide) (by decide)⟩⟩

end OpenHarness
